import Mathlib

/-!
Verification development for the MemoryManager repository: a shallow
embedding of `ObjectAllocator.h` (the fixed-block pool allocator),
`MemoryHandle.h` / `MemoryHandle.cpp` (the reference-counted Handle) and
`Pointer.h` (the SmartPointer), in the debug build configuration, together
with theorems settling the specification claims.

Host model: 32-bit host (the source casts pointers to `unsigned int`),
so a pointer is 4 bytes and `DebugHeader` (bool + padding + `char const *`
+ `unsigned`) occupies 12 bytes.  Addresses handed to `Free` are modelled
as a pair (page index, byte offset inside that page); the source's page
walk locates the unique page whose byte range contains the raw address,
which is exactly this decomposition for addresses inside some page.
-/

namespace MemoryManager

/-- Size of `GenericObject *` on the modelled (32-bit) host. -/
def ptrSize : Nat := 4

/-- `sizeof(DebugHeader)` on the modelled host (debug build). -/
def headerSize : Nat := 12

def U32 : Nat := 2 ^ 32

/-- Unsigned 32-bit subtraction `a - b` as the source computes address and
alignment differences (`unsigned` arithmetic, wrapping).  Faithful for
`a < 2^32` and `b < 2^32`. -/
def usub32 (a b : Nat) : Nat := (U32 + a - b) % U32

/-- Byte signature for allocated (but uninitialized) memory. -/
def ALLOCATED : Nat := 0xAA

/-- Memory signature for freed memory; also the `Free` return code for a
double free. -/
def FREED : Nat := 0xBB

/-- Memory signature for pad bytes; also the `Free` return code for a pad
violation. -/
def PAD : Nat := 0xDD

/-- Memory signature for alignment bytes; also the `Free` return code for a
misaligned free. -/
def ALIGN : Nat := 0xEE

/-- Memory signature for unallocated memory. -/
def UNALLOCATED : Nat := 0xFF

/-- `ObjectAllocatorSettings` together with `sizeof(T)`, fixing one
`ObjectAllocator<T>` instantiation (debug defaults). -/
structure Config where
  sizeofT : Nat
  blocksPerPage : Nat := 1024
  padBytes : Nat := 2
  alignment : Nat := 4
deriving DecidableEq, Repr

namespace Config

/-- `blockSize`: `sizeof(T)`, widened so a freed block can hold a
free-list link (constructor: `if (blockSize < sizeof(GenericObject*)) ...`). -/
def blockSize (c : Config) : Nat := max c.sizeofT ptrSize

/-- `leftAlign` as computed by the constructor, in unsigned arithmetic. -/
def leftAlign (c : Config) : Nat :=
  if 1 < c.alignment then
    usub32 c.alignment (ptrSize + headerSize + c.padBytes) % c.alignment
  else 0

/-- `interAlign` as computed by the constructor, in unsigned arithmetic. -/
def interAlign (c : Config) : Nat :=
  if 1 < c.alignment then
    usub32 c.alignment (c.blockSize + headerSize + 2 * c.padBytes) % c.alignment
  else 0

/-- `leftChunkSize = sizeof(GenericObject*) + leftAlign + headerSize
+ 2*padBytes + blockSize`. -/
def leftChunkSize (c : Config) : Nat :=
  ptrSize + c.leftAlign + headerSize + 2 * c.padBytes + c.blockSize

/-- `interChunkSize = blockSize + 2*padBytes + interAlign + headerSize`. -/
def interChunkSize (c : Config) : Nat :=
  c.blockSize + 2 * c.padBytes + c.interAlign + headerSize

/-- `CalculatePageSize()`. -/
def pageSize (c : Config) : Nat :=
  ptrSize + c.leftAlign +
    c.blocksPerPage * (c.blockSize + 2 * c.padBytes + headerSize + c.interAlign)
    - c.interAlign

/-- `left_offset = leftChunkSize - padBytes - blockSize` as computed in
`Free`: the in-page offset of block 0. -/
def leftOffset (c : Config) : Nat := c.leftChunkSize - c.padBytes - c.blockSize

/-- In-page byte offset of block `i`. -/
def blockOffset (c : Config) (i : Nat) : Nat := c.leftOffset + i * c.interChunkSize

end Config

/-- A byte of block storage.  `val b` is a plain byte with value `b`;
`linkB t k` is byte `k` of a free-list link word pointing at the block
identified by `t` (page index, block index), written by `Push`.  A null
link is written as four `val 0` bytes (the bytes of `nullptr`). -/
inductive MByte
| val (b : Nat)
| linkB (t : Nat × Nat) (k : Nat)
deriving DecidableEq, Repr

/-- The bytes `Push` stores in the first word of a block: the address of
the next free block, or `nullptr` (all-zero bytes) at the list end. -/
def linkBytes (t : Option (Nat × Nat)) : List MByte :=
  match t with
  | none => List.replicate ptrSize (MByte.val 0)
  | some a => (List.range ptrSize).map (MByte.linkB a)

/-- `DebugHeader`.  A zeroed header (all bytes 0, as written by `memset`)
is `allocated = false`, null `filename` (modelled as `""`), `line = 0`. -/
structure DebugHeader where
  allocated : Bool := false
  filename : String := ""
  line : Nat := 0
deriving DecidableEq, Repr

/-- One chunk of a debug page: header, left pad, block storage, right pad,
and the inter-chunk alignment filler that follows it (empty for the last
chunk of a page). -/
structure Chunk where
  header : DebugHeader := {}
  leftPad : List Nat := []
  blockBytes : List MByte := []
  rightPad : List Nat := []
  alignBytes : List Nat := []
deriving DecidableEq, Repr

instance : Inhabited Chunk := ⟨{}⟩

/-- A page: the page-list link word (not modelled byte-wise), the left
alignment filler, then `blocksPerPage` chunks. -/
structure Page where
  leftAlignBytes : List Nat := []
  chunks : List Chunk := []
deriving DecidableEq, Repr

instance : Inhabited Page := ⟨{}⟩

/-- The `Stats` structure. -/
structure Stats where
  freeBlocks : Nat := 0
  blocksInUse : Nat := 0
  pagesInUse : Nat := 0
  mostBlocksInUse : Nat := 0
  mostPagesInUse : Nat := 0
  allocations : Nat := 0
  deallocations : Nat := 0
deriving DecidableEq, Repr

/-- State of one `ObjectAllocator<T>`.  `pages` is ordered oldest first
(the source's `pageList` chains them newest first; the order does not
affect which page contains an address, since pages are disjoint).
`freeList` holds block identifiers (page index, block index); the source
stores the corresponding raw block addresses. -/
structure PoolState where
  pages : List Page := []
  freeList : List (Nat × Nat) := []
  stats : Stats := {}
deriving DecidableEq, Repr

/-- Freshly constructed pool: no pages, empty free list, zero stats. -/
def freshPool : PoolState := {}

/-- Replace element `n` of a list, applying `f` (no-op out of range). -/
def listModify (f : α → α) : Nat → List α → List α
  | _, [] => []
  | 0, a :: as => f a :: as
  | n + 1, a :: as => a :: listModify f n as

/-- Overwrite the first word of a block with a free-list link, keeping the
remaining bytes (what `Push` does to block storage). -/
def pushLink (t : Option (Nat × Nat)) (bb : List MByte) : List MByte :=
  linkBytes t ++ bb.drop ptrSize

/-- The chunk layout written by `CreatePage` before the block is pushed
onto the free list: zeroed header, `PAD` pads, `UNALLOCATED` block,
`ALIGN` inter-chunk filler (omitted after the last chunk). -/
def freshChunk (c : Config) (isLast : Bool) : Chunk :=
  { header := {}
    leftPad := List.replicate c.padBytes PAD
    blockBytes := List.replicate c.blockSize (MByte.val UNALLOCATED)
    rightPad := List.replicate c.padBytes PAD
    alignBytes := if isLast then [] else List.replicate c.interAlign ALIGN }

/-- `CreatePage()`: lay out a fresh page and push its `blocksPerPage`
blocks onto the free list in index order (so block `blocksPerPage - 1`
ends up on top).  Pushing block 0 links it to the previous free-list head;
pushing block `i+1` links it to block `i`.  Updates `pagesInUse`,
`freeBlocks`, `mostPagesInUse`. -/
def CreatePage (c : Config) (s : PoolState) : PoolState :=
  let pi := s.pages.length
  let chunks := (List.range c.blocksPerPage).map fun i =>
    let ch := freshChunk c (i = c.blocksPerPage - 1)
    { ch with blockBytes :=
        pushLink (if i = 0 then s.freeList.head? else some (pi, i - 1)) ch.blockBytes }
  let pg : Page := { leftAlignBytes := List.replicate c.leftAlign ALIGN, chunks := chunks }
  { pages := s.pages ++ [pg]
    freeList := ((List.range c.blocksPerPage).reverse.map fun i => (pi, i)) ++ s.freeList
    stats := { s.stats with
      pagesInUse := s.stats.pagesInUse + 1
      freeBlocks := s.stats.freeBlocks + c.blocksPerPage
      mostPagesInUse := max s.stats.mostPagesInUse (s.stats.pagesInUse + 1) } }

/-- Rewrite the chunk at (page index, block index) through `g`. -/
def modifyChunk (g : Chunk → Chunk) (pi bi : Nat) (pages : List Page) : List Page :=
  listModify (fun pg => { pg with chunks := listModify g bi pg.chunks }) pi pages

/-- What `Allocate` writes over the popped chunk: the block poisoned with
`ALLOCATED` and the header filled in (pads untouched). -/
def allocChunk (c : Config) (file : String) (line : Nat) (ch : Chunk) : Chunk :=
  { ch with
    header := { allocated := true, filename := file, line := line }
    blockBytes := List.replicate c.blockSize (MByte.val ALLOCATED) }

/-- The statistics update `Allocate` performs. -/
def allocStats (st : Stats) : Stats :=
  { st with
    allocations := st.allocations + 1
    blocksInUse := st.blocksInUse + 1
    mostBlocksInUse := max st.mostBlocksInUse (st.blocksInUse + 1)
    freeBlocks := st.freeBlocks - 1 }

/-- `Allocate(file, line)`: create a page if the free list is empty, bump
the statistics, pop the free-list head, poison the block with `ALLOCATED`
and fill in its debug header.  Returns the block's address as (page
index, in-page byte offset) together with the new state. -/
def Allocate (c : Config) (s : PoolState) (file : String) (line : Nat) :
    (Nat × Nat) × PoolState :=
  let s := if s.freeList = [] then CreatePage c s else s
  match s.freeList with
  | [] => ((0, 0), { s with stats := allocStats s.stats })
  | (pi, bi) :: rest =>
    ((pi, c.blockOffset bi),
      { pages := modifyChunk (allocChunk c file line) pi bi s.pages
        freeList := rest
        stats := allocStats s.stats })

/-- The log line `Free` writes on a misaligned free. -/
def alignMsg (file : String) (line : Nat) : String :=
  "Invalid alignment on free from #" ++ toString line ++ " in file " ++ file

/-- The log line `Free` writes on a double free. -/
def freedMsg (file : String) (line : Nat) : String :=
  "Attempt to free already freed memory from #" ++ toString line ++ " in file " ++ file

/-- The log line `Free` writes on a pad violation (cites the allocation's
callsite from the debug header, not the caller of `Free`). -/
def padMsg (h : DebugHeader) : String :=
  "Pad bytes invalidated for object allocated at #" ++ toString h.line ++
    " in file " ++ h.filename

/-- What a successful `Free` writes over the chunk: the block poisoned
with `FREED`, then the free-list link pushed over its first word, and the
header zeroed (pads untouched). -/
def freedChunk (c : Config) (head : Option (Nat × Nat)) (ch : Chunk) : Chunk :=
  { ch with
    header := {}
    blockBytes := pushLink head (List.replicate c.blockSize (MByte.val FREED)) }

/-- The statistics update a successful `Free` performs. -/
def freeStats (st : Stats) : Stats :=
  { st with
    deallocations := st.deallocations + 1
    blocksInUse := st.blocksInUse - 1
    freeBlocks := st.freeBlocks + 1 }

/-- `Free(mem, filename, line)` (debug build): validate in short-circuit
order (alignment, double free, pad canaries), and on success destroy the
payload, poison the block with `FREED`, zero the header, push the block
onto the free list and update the statistics.  Returns the status code,
the new pool state and the emitted log lines.

The address is (page index, in-page byte offset).  Result `none` marks
the executions whose behavior is undefined: an address inside no page
(the source then frees unchecked memory), and an address whose offset is
below block 0 but passes the alignment check through unsigned 32-bit
wrap-around (the source then reads a `DebugHeader` outside the page). -/
def Free (c : Config) (s : PoolState) (pi d : Nat) (file : String) (line : Nat) :
    Option (Nat × PoolState × List String) :=
  if pi < s.pages.length ∧ d < c.pageSize then
    if usub32 d c.leftOffset % c.interChunkSize ≠ 0 then
      some (ALIGN, s, [alignMsg file line])
    else if d < c.leftOffset then
      none
    else
      let i := (d - c.leftOffset) / c.interChunkSize
      let ch := ((s.pages.getD pi default).chunks.getD i default)
      if ch.header.allocated = false then
        some (FREED, s, [freedMsg file line])
      else if ch.leftPad.any (fun b => b ≠ PAD) || ch.rightPad.any (fun b => b ≠ PAD) then
        some (PAD, s, [padMsg ch.header])
      else
        some (0,
          { pages := modifyChunk (freedChunk c s.freeList.head?) pi i s.pages
            freeList := (pi, i) :: s.freeList
            stats := freeStats s.stats },
          [])
  else none

/-- The line `DumpMemoryInUse` writes for an in-use block (no newline is
written: the stream insertions end with the filename). -/
def leakLine (c : Config) (h : DebugHeader) : String :=
  toString c.blockSize ++ "b allocated at line #" ++ toString h.line ++
    " in file " ++ h.filename

/-- Concatenation of a sequence of stream writes. -/
def strJoin (l : List String) : String := l.foldr (fun a b => a ++ b) ""

/-- `DumpMemoryInUse(outputStream)`: walk every page (the page list is
newest first), visit every slot in index order, and write a leak line for
each header with `allocated = true` (and nothing for the others). -/
def DumpMemoryInUse (c : Config) (s : PoolState) : String :=
  strJoin (s.pages.reverse.map fun pg =>
    strJoin (pg.chunks.map fun ch =>
      if ch.header.allocated then leakLine c ch.header else ""))

/-! ### Spec-side description of `Free`'s validation (from the claim, amended) -/

/-- Validation outcome of `Free` as the (amended) claim describes it: if
the address is the start of some block `bi` of the page, the code is
`FREED` when that block's header is not allocated, else `PAD` when any of
the pad bytes around the block differs from `PAD`, else `0`; if the
address is no block start, the code is `ALIGN` — except that an offset
below block 0 whose unsigned 32-bit difference `d - left_offset` is a
multiple of `interChunkSize` passes the source's alignment check and runs
into an out-of-page header read (undefined, `none`). -/
def FreeSpec (c : Config) (s : PoolState) (pi d : Nat) : Option Nat :=
  if pi < s.pages.length ∧ d < c.pageSize then
    match (List.range c.blocksPerPage).find? (fun bi => d == c.blockOffset bi) with
    | some bi =>
      let ch := (s.pages.getD pi default).chunks.getD bi default
      if ch.header.allocated = false then some FREED
      else if (ch.leftPad ++ ch.rightPad).any (fun b => b ≠ PAD) then some PAD
      else some 0
    | none =>
      if c.leftOffset ≤ d ∨ usub32 d c.leftOffset % c.interChunkSize ≠ 0 then some ALIGN
      else none
  else none

/-! ### Pool invariant -/

/-- Sanity conditions on a configuration: at least one block per page and
a page that fits in the 32-bit address space. -/
def CfgOK (c : Config) : Prop :=
  1 ≤ c.blocksPerPage ∧ c.pageSize ≤ U32

instance (c : Config) : Decidable (CfgOK c) := by unfold CfgOK; infer_instance

/-- Number of blocks whose debug header is marked allocated. -/
def allocatedCount (s : PoolState) : Nat :=
  (s.pages.map fun pg => pg.chunks.countP fun ch => ch.header.allocated).sum

/-- Structural well-formedness of a page: `blocksPerPage` chunks whose pad
regions hold the `PAD` canary. -/
def PageWF (c : Config) (pg : Page) : Prop :=
  pg.chunks.length = c.blocksPerPage ∧
  ∀ ch ∈ pg.chunks, ch.leftPad = List.replicate c.padBytes PAD ∧
    ch.rightPad = List.replicate c.padBytes PAD

/-- Invariant of a reachable pool state: the statistics agree with the
data structures, pages are well formed, and the free list holds distinct
valid block identifiers of non-allocated blocks. -/
def poolInv (c : Config) (s : PoolState) : Prop :=
  s.stats.pagesInUse = s.pages.length ∧
  s.stats.freeBlocks = s.freeList.length ∧
  s.stats.blocksInUse = allocatedCount s ∧
  s.stats.allocations = s.stats.deallocations + s.stats.blocksInUse ∧
  s.stats.freeBlocks + s.stats.blocksInUse = s.stats.pagesInUse * c.blocksPerPage ∧
  (∀ pg ∈ s.pages, PageWF c pg) ∧
  (∀ e ∈ s.freeList, e.1 < s.pages.length ∧ e.2 < c.blocksPerPage ∧
    ((s.pages.getD e.1 default).chunks.getD e.2 default).header.allocated = false) ∧
  s.freeList.Nodup

instance (c : Config) (pg : Page) : Decidable (PageWF c pg) := by
  unfold PageWF; infer_instance

instance (c : Config) (s : PoolState) : Decidable (poolInv c s) := by
  unfold poolInv; infer_instance

/-! ### List helper lemmas -/

theorem listModify_length (f : α → α) (n : Nat) (l : List α) :
    (listModify f n l).length = l.length := by
  induction l generalizing n with
  | nil => cases n <;> rfl
  | cons a as ih =>
    cases n with
    | zero => rfl
    | succ m => simp [listModify, ih]

theorem getD_listModify_self [Inhabited α] (f : α → α) (n : Nat) (l : List α)
    (h : n < l.length) :
    (listModify f n l).getD n default = f (l.getD n default) := by
  induction l generalizing n with
  | nil => simp at h
  | cons a as ih =>
    cases n with
    | zero => rfl
    | succ m => simpa [listModify] using ih m (by simpa using h)

theorem getD_listModify_ne [Inhabited α] (f : α → α) (n m : Nat) (l : List α)
    (h : m ≠ n) :
    (listModify f n l).getD m default = l.getD m default := by
  induction l generalizing n m with
  | nil => cases n <;> rfl
  | cons a as ih =>
    cases n with
    | zero => cases m with
      | zero => exact absurd rfl h
      | succ k => rfl
    | succ n' => cases m with
      | zero => rfl
      | succ k => simpa [listModify] using ih n' k (by omega)

theorem forall_mem_listModify {P : α → Prop} (f : α → α) (n : Nat) (l : List α)
    (hl : ∀ x ∈ l, P x) (hf : ∀ x, P x → P (f x)) :
    ∀ x ∈ listModify f n l, P x := by
  induction l generalizing n with
  | nil => intro x hx; cases n <;> simp [listModify] at hx
  | cons a as ih =>
    cases n with
    | zero =>
      intro x hx
      rcases List.mem_cons.mp hx with h | h
      · exact h ▸ hf a (hl a (by simp))
      · exact hl x (by simp [h])
    | succ m =>
      intro x hx
      rcases List.mem_cons.mp hx with h | h
      · exact h ▸ hl a (by simp)
      · exact ih m (fun y hy => hl y (by simp [hy])) x h

theorem countP_listModify [Inhabited α] (p : α → Bool) (f : α → α) (n : Nat)
    (l : List α) (h : n < l.length) :
    (listModify f n l).countP p + (if p (l.getD n default) then 1 else 0) =
      l.countP p + (if p (f (l.getD n default)) then 1 else 0) := by
  induction l generalizing n with
  | nil => simp at h
  | cons a as ih =>
    cases n with
    | zero =>
      simp only [listModify, List.countP_cons, List.getD_cons_zero]
      omega
    | succ m =>
      have := ih m (by simpa using h)
      simp only [listModify, List.countP_cons, List.getD_cons_succ]
      omega

theorem sum_map_listModify [Inhabited α] (g : α → Nat) (f : α → α) (n : Nat)
    (l : List α) (h : n < l.length) :
    ((listModify f n l).map g).sum + g (l.getD n default) =
      (l.map g).sum + g (f (l.getD n default)) := by
  induction l generalizing n with
  | nil => simp at h
  | cons a as ih =>
    cases n with
    | zero => simp [listModify]; omega
    | succ m =>
      have := ih m (by simpa using h)
      simp only [listModify, List.map_cons, List.sum_cons, List.getD_cons_succ]
      omega

theorem getD_range_map (f : Nat → α) [Inhabited α] (n i : Nat) (h : i < n) :
    (((List.range n).map f).getD i default) = f i := by
  rw [List.getD_eq_getElem?_getD, List.getElem?_map, List.getElem?_range h]
  rfl

/-! ### Arithmetic facts about the derived layout quantities -/

theorem headerSize_pos : 0 < headerSize := by decide

namespace Config

variable (c : Config)

theorem blockSize_ge : ptrSize ≤ c.blockSize := le_max_right _ _

theorem blockSize_pos : 0 < c.blockSize :=
  lt_of_lt_of_le (by decide) c.blockSize_ge

theorem interChunkSize_pos : 0 < c.interChunkSize := by
  have h := headerSize_pos
  unfold interChunkSize
  omega

theorem blockRoom_le_interChunkSize :
    c.blockSize + c.padBytes ≤ c.interChunkSize := by
  unfold interChunkSize; omega

theorem leftOffset_eq :
    c.leftOffset = ptrSize + c.leftAlign + headerSize + c.padBytes := by
  unfold leftOffset leftChunkSize
  omega

theorem succ_pred_mul (I : Nat) (h : 1 ≤ c.blocksPerPage) :
    (c.blocksPerPage - 1) * I + I = c.blocksPerPage * I := by
  have h2 : c.blocksPerPage - 1 + 1 = c.blocksPerPage := by omega
  calc (c.blocksPerPage - 1) * I + I = (c.blocksPerPage - 1 + 1) * I := by ring
    _ = c.blocksPerPage * I := by rw [h2]

theorem pageSize_eq0 :
    c.pageSize =
      ptrSize + c.leftAlign + c.blocksPerPage * c.interChunkSize - c.interAlign := by
  unfold pageSize interChunkSize
  have h : c.blockSize + 2 * c.padBytes + headerSize + c.interAlign
      = c.blockSize + 2 * c.padBytes + c.interAlign + headerSize := by ring
  rw [h]

theorem pageSize_eq (h : 1 ≤ c.blocksPerPage) :
    c.pageSize = c.blockOffset (c.blocksPerPage - 1) + c.blockSize + c.padBytes := by
  have h1 := c.succ_pred_mul c.interChunkSize h
  have h0 := c.pageSize_eq0
  have hlo := c.leftOffset_eq
  have hI : c.interChunkSize =
      c.blockSize + 2 * c.padBytes + c.interAlign + headerSize := rfl
  unfold blockOffset
  omega

theorem blockOffset_room (bi : Nat) (h1 : 1 ≤ c.blocksPerPage)
    (hbi : bi < c.blocksPerPage) :
    c.blockOffset bi + c.blockSize + c.padBytes ≤ c.pageSize := by
  rw [pageSize_eq c h1]
  have hmono : bi * c.interChunkSize ≤ (c.blocksPerPage - 1) * c.interChunkSize :=
    Nat.mul_le_mul_right _ (by omega)
  unfold blockOffset at *
  omega

theorem blockOffset_lt_pageSize (bi : Nat) (hbi : bi < c.blocksPerPage) :
    c.blockOffset bi < c.pageSize := by
  have h := c.blockOffset_room bi (by omega) hbi
  have h2 := c.blockSize_pos
  omega

theorem usub32_of_le {a b : Nat} (hba : b ≤ a) (ha : a < U32) :
    usub32 a b = a - b := by
  unfold usub32
  rw [Nat.add_sub_assoc hba, Nat.add_mod_left]
  exact Nat.mod_eq_of_lt (by omega)

/-- Block starts pass the source's unsigned alignment check, and the
source's division recovers the block index. -/
theorem align_pass (hc : CfgOK c) (bi : Nat) (hbi : bi < c.blocksPerPage) :
    usub32 (c.blockOffset bi) c.leftOffset % c.interChunkSize = 0 ∧
    c.leftOffset ≤ c.blockOffset bi ∧
    (c.blockOffset bi - c.leftOffset) / c.interChunkSize = bi := by
  have hlt : c.blockOffset bi < U32 :=
    lt_of_lt_of_le (c.blockOffset_lt_pageSize bi hbi) hc.2
  have hle : c.leftOffset ≤ c.blockOffset bi := Nat.le_add_right _ _
  have hu : usub32 (c.blockOffset bi) c.leftOffset = bi * c.interChunkSize := by
    rw [usub32_of_le hle hlt]
    unfold blockOffset
    omega
  refine ⟨?_, hle, ?_⟩
  · rw [hu]; exact Nat.mul_mod_left _ _
  · have : c.blockOffset bi - c.leftOffset = bi * c.interChunkSize := by
      unfold blockOffset; omega
    rw [this]
    exact Nat.mul_div_cancel _ c.interChunkSize_pos

/-- An in-page offset at or beyond block 0 that passes the source's
alignment check is the start of a block with index below `blocksPerPage`. -/
theorem align_decomp (hc : CfgOK c) {d : Nat} (hd : d < c.pageSize)
    (hlo : c.leftOffset ≤ d)
    (hmod : usub32 d c.leftOffset % c.interChunkSize = 0) :
    (d - c.leftOffset) / c.interChunkSize < c.blocksPerPage ∧
    d = c.blockOffset ((d - c.leftOffset) / c.interChunkSize) := by
  have hI := c.interChunkSize_pos
  have hu : usub32 d c.leftOffset = d - c.leftOffset :=
    usub32_of_le hlo (lt_of_lt_of_le hd hc.2)
  rw [hu] at hmod
  have hk : (d - c.leftOffset) / c.interChunkSize * c.interChunkSize =
      d - c.leftOffset :=
    Nat.div_mul_cancel (Nat.dvd_of_mod_eq_zero hmod)
  have hps := c.pageSize_eq hc.1
  have hroom := c.blockRoom_le_interChunkSize
  have hsm := c.succ_pred_mul c.interChunkSize hc.1
  constructor
  · by_contra hcon
    push_neg at hcon
    have : c.blocksPerPage * c.interChunkSize ≤
        (d - c.leftOffset) / c.interChunkSize * c.interChunkSize :=
      Nat.mul_le_mul_right _ hcon
    unfold blockOffset at hps
    omega
  · unfold blockOffset
    omega

end Config

/-! ### Properties of `CreatePage` -/

/-- The chunk list `CreatePage` lays out for the new page. -/
def newChunks (c : Config) (s : PoolState) : List Chunk :=
  (List.range c.blocksPerPage).map fun i =>
    let ch := freshChunk c (i = c.blocksPerPage - 1)
    { ch with blockBytes :=
        pushLink (if i = 0 then s.freeList.head? else some (s.pages.length, i - 1)) ch.blockBytes }

/-- The page `CreatePage` appends to the page list. -/
def newPage (c : Config) (s : PoolState) : Page :=
  { leftAlignBytes := List.replicate c.leftAlign ALIGN, chunks := newChunks c s }

theorem CreatePage_pages (c : Config) (s : PoolState) :
    (CreatePage c s).pages = s.pages ++ [newPage c s] := rfl

theorem CreatePage_freeList (c : Config) (s : PoolState) :
    (CreatePage c s).freeList =
      ((List.range c.blocksPerPage).reverse.map fun i => (s.pages.length, i))
        ++ s.freeList := rfl

theorem CreatePage_stats (c : Config) (s : PoolState) :
    (CreatePage c s).stats = { s.stats with
      pagesInUse := s.stats.pagesInUse + 1
      freeBlocks := s.stats.freeBlocks + c.blocksPerPage
      mostPagesInUse := max s.stats.mostPagesInUse (s.stats.pagesInUse + 1) } := rfl

theorem newChunks_length (c : Config) (s : PoolState) :
    (newChunks c s).length = c.blocksPerPage := by
  simp [newChunks]

theorem newChunks_getD (c : Config) (s : PoolState) (i : Nat)
    (hi : i < c.blocksPerPage) :
    (newChunks c s).getD i default =
      { header := {}
        leftPad := List.replicate c.padBytes PAD
        blockBytes := pushLink
          (if i = 0 then s.freeList.head? else some (s.pages.length, i - 1))
          (List.replicate c.blockSize (MByte.val UNALLOCATED))
        rightPad := List.replicate c.padBytes PAD
        alignBytes := if i = c.blocksPerPage - 1 then []
          else List.replicate c.interAlign ALIGN } := by
  unfold newChunks
  rw [getD_range_map _ _ _ hi]
  simp only [freshChunk, decide_eq_true_eq]

theorem newChunks_mem (c : Config) (s : PoolState) (ch : Chunk)
    (h : ch ∈ newChunks c s) :
    ch.header = {} ∧ ch.leftPad = List.replicate c.padBytes PAD ∧
      ch.rightPad = List.replicate c.padBytes PAD := by
  unfold newChunks at h
  rcases List.mem_map.mp h with ⟨i, _, rfl⟩
  exact ⟨rfl, rfl, rfl⟩

theorem newChunks_countP_allocated (c : Config) (s : PoolState) :
    (newChunks c s).countP (fun ch => ch.header.allocated) = 0 := by
  rw [List.countP_eq_zero]
  intro ch hch
  rw [(newChunks_mem c s ch hch).1]
  simp

theorem allocatedCount_CreatePage (c : Config) (s : PoolState) :
    allocatedCount (CreatePage c s) = allocatedCount s := by
  unfold allocatedCount
  rw [CreatePage_pages]
  simp [newPage, newChunks_countP_allocated c s]

/-- `CreatePage` preserves the pool invariant (and is only invoked with a
positive `blocksPerPage`). -/
theorem CreatePage_inv (c : Config) (s : PoolState) (hc : CfgOK c)
    (h : poolInv c s) : poolInv c (CreatePage c s) := by
  obtain ⟨h1, h2, h3, h4, h5, h6, h7, h8⟩ := h
  have hlen : (CreatePage c s).pages.length = s.pages.length + 1 := by
    rw [CreatePage_pages]; simp
  refine ⟨?_, ?_, ?_, ?_, ?_, ?_, ?_, ?_⟩
  · rw [CreatePage_stats, hlen]; simpa using h1
  · rw [CreatePage_stats, CreatePage_freeList]
    simp only [List.length_append, List.length_map, List.length_reverse,
      List.length_range]
    omega
  · rw [CreatePage_stats, allocatedCount_CreatePage]; simpa using h3
  · rw [CreatePage_stats]; simpa using h4
  · rw [CreatePage_stats]
    show s.stats.freeBlocks + c.blocksPerPage + s.stats.blocksInUse =
      (s.stats.pagesInUse + 1) * c.blocksPerPage
    have : (s.stats.pagesInUse + 1) * c.blocksPerPage =
        s.stats.pagesInUse * c.blocksPerPage + c.blocksPerPage := by ring
    omega
  · rw [CreatePage_pages]
    intro pg hpg
    rcases List.mem_append.mp hpg with hpg | hpg
    · exact h6 pg hpg
    · rcases List.mem_singleton.mp hpg with rfl
      refine ⟨by simpa [newPage] using newChunks_length c s, ?_⟩
      intro ch hch
      exact (newChunks_mem c s ch (by simpa [newPage] using hch)).2
  · rw [CreatePage_freeList, CreatePage_pages]
    intro e he
    rcases List.mem_append.mp he with he | he
    · rcases List.mem_map.mp he with ⟨i, hi, rfl⟩
      rw [List.mem_reverse, List.mem_range] at hi
      refine ⟨by simp, hi, ?_⟩
      rw [List.getD_append_right _ _ _ _ (le_refl _), Nat.sub_self]
      show ((newChunks c s).getD i default).header.allocated = false
      rw [newChunks_getD c s i hi]
    · obtain ⟨he1, he2, he3⟩ := h7 e he
      refine ⟨by simp; omega, he2, ?_⟩
      rw [List.getD_append _ _ _ _ he1]
      exact he3
  · rw [CreatePage_freeList]
    refine List.Nodup.append ?_ h8 ?_
    · exact (List.nodup_reverse.mpr (List.nodup_range _)).map
        (fun a b hab => by simpa using hab)
    · intro e he1 he2
      rcases List.mem_map.mp he1 with ⟨i, _, rfl⟩
      have := (h7 _ he2).1
      simp at this

/-! ### Properties of chunk updates -/

theorem modifyChunk_length (g : Chunk → Chunk) (pi bi : Nat) (pages : List Page) :
    (modifyChunk g pi bi pages).length = pages.length :=
  listModify_length _ _ _

theorem modifyChunk_getD_self (g : Chunk → Chunk) (pi bi : Nat)
    (pages : List Page) (hpi : pi < pages.length)
    (hbi : bi < (pages.getD pi default).chunks.length) :
    ((modifyChunk g pi bi pages).getD pi default).chunks.getD bi default =
      g ((pages.getD pi default).chunks.getD bi default) := by
  unfold modifyChunk
  rw [getD_listModify_self _ _ _ hpi]
  exact getD_listModify_self _ _ _ hbi

theorem modifyChunk_getD_ne (g : Chunk → Chunk) (pi bi pj bj : Nat)
    (pages : List Page) (h : ¬(pj = pi ∧ bj = bi)) :
    ((modifyChunk g pi bi pages).getD pj default).chunks.getD bj default =
      (pages.getD pj default).chunks.getD bj default := by
  unfold modifyChunk
  by_cases hp : pj = pi
  · subst hp
    have hb : bj ≠ bi := fun hb => h ⟨rfl, hb⟩
    by_cases hg : pj < pages.length
    · rw [getD_listModify_self _ _ _ hg]
      exact getD_listModify_ne _ _ _ _ hb
    · have houter : (listModify
          (fun pg => { pg with chunks := listModify g bi pg.chunks }) pj pages).getD
            pj default = default :=
        List.getD_eq_default _ _ (by rw [listModify_length]; omega)
      have houter2 : pages.getD pj default = default :=
        List.getD_eq_default _ _ (by omega)
      rw [houter, houter2]
  · rw [getD_listModify_ne _ _ _ _ hp]

theorem modifyChunk_chunks_length (g : Chunk → Chunk) (pi bi pj : Nat)
    (pages : List Page) :
    ((modifyChunk g pi bi pages).getD pj default).chunks.length =
      (pages.getD pj default).chunks.length := by
  unfold modifyChunk
  by_cases hp : pj = pi
  · subst hp
    by_cases hg : pj < pages.length
    · rw [getD_listModify_self _ _ _ hg]
      exact listModify_length _ _ _
    · rw [List.getD_eq_default _ _ (by rw [listModify_length]; omega),
        List.getD_eq_default _ _ (by omega)]
  · rw [getD_listModify_ne _ _ _ _ hp]

/-- Number of allocated headers in a page list. -/
def chunksAlloc (pages : List Page) : Nat :=
  (pages.map fun pg => pg.chunks.countP fun ch => ch.header.allocated).sum

theorem allocatedCount_eq (s : PoolState) : allocatedCount s = chunksAlloc s.pages := rfl

theorem chunksAlloc_modify (g : Chunk → Chunk) (pi bi : Nat) (pages : List Page)
    (hpi : pi < pages.length) (hbi : bi < (pages.getD pi default).chunks.length) :
    chunksAlloc (modifyChunk g pi bi pages) +
      (if ((pages.getD pi default).chunks.getD bi default).header.allocated then 1 else 0) =
    chunksAlloc pages +
      (if (g ((pages.getD pi default).chunks.getD bi default)).header.allocated then 1 else 0) := by
  unfold chunksAlloc modifyChunk
  have h1 := sum_map_listModify (fun pg => pg.chunks.countP fun ch => ch.header.allocated)
    (fun pg => { pg with chunks := listModify g bi pg.chunks }) pi pages hpi
  have h2 := countP_listModify (fun ch => ch.header.allocated) g bi
    (pages.getD pi default).chunks hbi
  simp only at h1
  simp only at h2
  omega

theorem modifyChunk_pageWF (c : Config) (g : Chunk → Chunk) (pi bi : Nat)
    (pages : List Page) (hwf : ∀ pg ∈ pages, PageWF c pg)
    (hg : ∀ ch, (g ch).leftPad = ch.leftPad ∧ (g ch).rightPad = ch.rightPad) :
    ∀ pg ∈ modifyChunk g pi bi pages, PageWF c pg := by
  unfold modifyChunk
  refine forall_mem_listModify _ _ _ hwf ?_
  intro pg hpg
  refine ⟨by rw [listModify_length]; exact hpg.1, ?_⟩
  show ∀ ch ∈ listModify g bi pg.chunks, _
  refine forall_mem_listModify _ _ _ hpg.2 ?_
  intro ch hch
  rw [(hg ch).1, (hg ch).2]
  exact hch

/-! ### Branch characterizations of `Allocate` and `Free` -/

theorem Allocate_cons (c : Config) (s : PoolState) (file : String) (line : Nat)
    (pi bi : Nat) (rest : List (Nat × Nat)) (h : s.freeList = (pi, bi) :: rest) :
    Allocate c s file line = ((pi, c.blockOffset bi),
      { pages := modifyChunk (allocChunk c file line) pi bi s.pages
        freeList := rest
        stats := allocStats s.stats }) := by
  unfold Allocate
  rw [if_neg (by simp [h])]
  simp only [h]

theorem CreatePage_freeList_ne (c : Config) (s : PoolState)
    (hbpp : 1 ≤ c.blocksPerPage) : (CreatePage c s).freeList ≠ [] := by
  rw [CreatePage_freeList]
  intro heq
  have := congrArg List.length heq
  simp at this
  omega

theorem Allocate_of_empty (c : Config) (s : PoolState) (file : String) (line : Nat)
    (hbpp : 1 ≤ c.blocksPerPage) (h : s.freeList = []) :
    Allocate c s file line = Allocate c (CreatePage c s) file line := by
  conv_lhs => unfold Allocate
  conv_rhs => unfold Allocate
  rw [if_pos h, if_neg (CreatePage_freeList_ne c s hbpp)]

theorem CreatePage_freeList_head (c : Config) (s : PoolState)
    (hbpp : 1 ≤ c.blocksPerPage) :
    ∃ tl, (CreatePage c s).freeList =
      (s.pages.length, c.blocksPerPage - 1) :: tl := by
  rw [CreatePage_freeList]
  obtain ⟨k, hk⟩ : ∃ k, c.blocksPerPage = k + 1 := ⟨c.blocksPerPage - 1, by omega⟩
  refine ⟨((List.range k).reverse.map fun i => (s.pages.length, i)) ++ s.freeList, ?_⟩
  rw [hk, List.range_succ]
  simp

theorem replicate_pad_any_false (n : Nat) :
    (List.replicate n PAD).any (fun b => decide (b ≠ PAD)) = false := by
  rw [List.any_eq_false]
  intro x hx
  rw [List.eq_of_mem_replicate hx]
  simp

theorem lt_length_of_getD_ne [Inhabited α] (l : List α) (n : Nat)
    (h : l.getD n default ≠ default) : n < l.length := by
  by_contra hc
  push_neg at hc
  exact h (List.getD_eq_default _ _ hc)

/-- A `Free` of a block start whose header is allocated and whose pads are
intact succeeds: poison + zero header + push + statistics update. -/
theorem Free_success (c : Config) (s : PoolState) (pi bi : Nat)
    (file : String) (line : Nat) (hc : CfgOK c)
    (hpi : pi < s.pages.length) (hbi : bi < c.blocksPerPage)
    (hal : ((s.pages.getD pi default).chunks.getD bi default).header.allocated = true)
    (hlp : ((s.pages.getD pi default).chunks.getD bi default).leftPad =
      List.replicate c.padBytes PAD)
    (hrp : ((s.pages.getD pi default).chunks.getD bi default).rightPad =
      List.replicate c.padBytes PAD) :
    Free c s pi (c.blockOffset bi) file line =
      some (0, { pages := modifyChunk (freedChunk c s.freeList.head?) pi bi s.pages
                 freeList := (pi, bi) :: s.freeList
                 stats := freeStats s.stats }, []) := by
  obtain ⟨hm, hle, hdiv⟩ := c.align_pass hc bi hbi
  have hd : c.blockOffset bi < c.pageSize := c.blockOffset_lt_pageSize bi hbi
  unfold Free
  rw [if_pos ⟨hpi, hd⟩, if_neg (by rw [hm]; simp), if_neg (by omega), hdiv]
  simp only []
  rw [if_neg (by rw [hal]; simp), if_neg (by rw [hlp, hrp]; simp [replicate_pad_any_false])]

/-- A failed `Free` (nonzero status) leaves the pool state unchanged. -/
theorem Free_fail (c : Config) (s : PoolState) (pi d : Nat) (file : String)
    (line : Nat) (code : Nat) (s' : PoolState) (logs : List String)
    (h : Free c s pi d file line = some (code, s', logs)) (hc : code ≠ 0) :
    s' = s := by
  simp only [Free] at h
  split_ifs at h <;> (cases h <;> first | rfl | exact absurd rfl hc)

/-- Dissection of a successful `Free`: the address is a block start, the
block was allocated, and the result state is the poison/zero/push/stats
update. -/
theorem Free_ok_shape (c : Config) (s : PoolState) (pi d : Nat) (file : String)
    (line : Nat) (s' : PoolState) (logs : List String) (hc : CfgOK c)
    (h : Free c s pi d file line = some (0, s', logs)) :
    pi < s.pages.length ∧ ∃ bi, bi < c.blocksPerPage ∧ d = c.blockOffset bi ∧
      ((s.pages.getD pi default).chunks.getD bi default).header.allocated = true ∧
      s' = { pages := modifyChunk (freedChunk c s.freeList.head?) pi bi s.pages
             freeList := (pi, bi) :: s.freeList
             stats := freeStats s.stats } ∧ logs = [] := by
  simp only [Free] at h
  split_ifs at h with h1 h2 h3 h4 h5
  · simp only [Option.some.injEq, Prod.mk.injEq] at h
    exact absurd h.1 (by decide)
  · simp only [Option.some.injEq, Prod.mk.injEq] at h
    exact absurd h.1 (by decide)
  · simp only [Option.some.injEq, Prod.mk.injEq] at h
    exact absurd h.1 (by decide)
  · simp only [Option.some.injEq, Prod.mk.injEq] at h
    obtain ⟨hd2, hdec⟩ := c.align_decomp hc h1.2 (by omega) (by omega)
    refine ⟨h1.1, (d - c.leftOffset) / c.interChunkSize, hd2, hdec, ?_, h.2.1.symm, h.2.2.symm⟩
    simpa using h4

theorem Free_freed (c : Config) (s : PoolState) (pi bi : Nat)
    (file : String) (line : Nat) (hc : CfgOK c)
    (hpi : pi < s.pages.length) (hbi : bi < c.blocksPerPage)
    (hna : ((s.pages.getD pi default).chunks.getD bi default).header.allocated = false) :
    Free c s pi (c.blockOffset bi) file line =
      some (FREED, s, [freedMsg file line]) := by
  obtain ⟨hm, hle, hdiv⟩ := c.align_pass hc bi hbi
  have hd : c.blockOffset bi < c.pageSize := c.blockOffset_lt_pageSize bi hbi
  unfold Free
  rw [if_pos ⟨hpi, hd⟩, if_neg (by rw [hm]; simp), if_neg (by omega), hdiv]
  simp only []
  rw [if_pos hna]

/-- Freeing the same address again after a successful `Free` reports a
double free and changes nothing. -/
theorem Free_double (c : Config) (s : PoolState) (pi d : Nat)
    (file file' : String) (line line' : Nat) (s' : PoolState) (logs : List String)
    (hc : CfgOK c) (h : Free c s pi d file line = some (0, s', logs)) :
    Free c s' pi d file' line' = some (FREED, s', [freedMsg file' line']) := by
  obtain ⟨hpi, bi, hbi, rfl, hal, rfl, rfl⟩ := Free_ok_shape c s pi d file line s' logs hc h
  have hblen : bi < (s.pages.getD pi default).chunks.length := by
    refine lt_length_of_getD_ne _ _ ?_
    intro heq
    rw [heq] at hal
    have hfd : (default : Chunk).header.allocated = false := rfl
    rw [hfd] at hal
    cases hal
  have hlen2 : pi < (modifyChunk (freedChunk c s.freeList.head?) pi bi s.pages).length := by
    rw [modifyChunk_length]; exact hpi
  have hnot : (((modifyChunk (freedChunk c s.freeList.head?) pi bi
      s.pages).getD pi default).chunks.getD bi default).header.allocated = false := by
    rw [modifyChunk_getD_self _ _ _ _ hpi hblen]
    rfl
  exact Free_freed c _ pi bi file' line' hc hlen2 hbi hnot

theorem getD_le_sum_map [Inhabited α] (g : α → Nat) (l : List α) (n : Nat)
    (h : n < l.length) : g (l.getD n default) ≤ (l.map g).sum := by
  induction l generalizing n with
  | nil => simp at h
  | cons a as ih =>
    cases n with
    | zero => simp
    | succ m =>
      have := ih m (by simpa using h)
      simp only [List.getD_cons_succ, List.map_cons, List.sum_cons]
      omega

theorem chunksAlloc_pos (pages : List Page) (pi bi : Nat)
    (hpi : pi < pages.length) (hbi : bi < (pages.getD pi default).chunks.length)
    (hal : ((pages.getD pi default).chunks.getD bi default).header.allocated = true) :
    1 ≤ chunksAlloc pages := by
  have h1 : 1 ≤ (pages.getD pi default).chunks.countP fun ch => ch.header.allocated := by
    rw [Nat.succ_le, List.countP_pos_iff]
    refine ⟨(pages.getD pi default).chunks.getD bi default, ?_, hal⟩
    rw [List.getD_eq_getElem _ _ hbi]
    exact List.getElem_mem hbi
  calc 1 ≤ _ := h1
    _ ≤ chunksAlloc pages :=
      getD_le_sum_map (fun pg => pg.chunks.countP fun ch => ch.header.allocated)
        pages pi hpi

/-- Popping the free-list head in `Allocate` preserves the pool invariant. -/
theorem Allocate_inv_cons (c : Config) (s : PoolState) (file : String) (line : Nat)
    (pi bi : Nat) (rest : List (Nat × Nat)) (hl : s.freeList = (pi, bi) :: rest)
    (hinv : poolInv c s) : poolInv c (Allocate c s file line).2 := by
  obtain ⟨h1, h2, h3, h4, h5, h6, h7, h8⟩ := hinv
  obtain ⟨hpi0, hbi0, hna0⟩ := h7 (pi, bi) (by rw [hl]; simp)
  have hpi : pi < s.pages.length := hpi0
  have hbi : bi < c.blocksPerPage := hbi0
  have hna : ((s.pages.getD pi default).chunks.getD bi default).header.allocated = false := hna0
  have hlen : (s.pages.getD pi default).chunks.length = c.blocksPerPage :=
    (h6 _ (by rw [List.getD_eq_getElem _ _ hpi]; exact List.getElem_mem hpi)).1
  have hbl : bi < (s.pages.getD pi default).chunks.length := by omega
  have hnodup := h8
  rw [hl] at hnodup
  have hnotmem : (pi, bi) ∉ rest := (List.nodup_cons.mp hnodup).1
  rw [Allocate_cons c s file line pi bi rest hl]
  have hcnt := chunksAlloc_modify (allocChunk c file line) pi bi s.pages hpi hbl
  rw [hna] at hcnt
  have hac : (allocChunk c file line
      ((s.pages.getD pi default).chunks.getD bi default)).header.allocated = true := rfl
  rw [hac] at hcnt
  simp only [if_true, if_false, Bool.false_eq_true] at hcnt
  rw [allocatedCount_eq] at h3
  have hfree : s.stats.freeBlocks = rest.length + 1 := by
    rw [h2, hl]; simp
  refine ⟨?_, ?_, ?_, ?_, ?_, ?_, ?_, ?_⟩
  · show (allocStats s.stats).pagesInUse =
      (modifyChunk (allocChunk c file line) pi bi s.pages).length
    rw [modifyChunk_length]
    exact h1
  · show s.stats.freeBlocks - 1 = rest.length
    omega
  · show s.stats.blocksInUse + 1 =
      chunksAlloc (modifyChunk (allocChunk c file line) pi bi s.pages)
    omega
  · show s.stats.allocations + 1 =
      s.stats.deallocations + (s.stats.blocksInUse + 1)
    omega
  · show s.stats.freeBlocks - 1 + (s.stats.blocksInUse + 1) =
      s.stats.pagesInUse * c.blocksPerPage
    omega
  · exact modifyChunk_pageWF c _ pi bi s.pages h6 (fun ch => ⟨rfl, rfl⟩)
  · intro e he
    have hemem : e ∈ s.freeList := by rw [hl]; exact List.mem_cons_of_mem _ he
    obtain ⟨he1, he2, he3⟩ := h7 e hemem
    have hne : ¬(e.1 = pi ∧ e.2 = bi) := by
      rintro ⟨ha, hb⟩
      apply hnotmem
      have heq : e = (pi, bi) := Prod.ext ha hb
      rw [← heq]
      exact he
    refine ⟨?_, he2, ?_⟩
    · show e.1 < (modifyChunk (allocChunk c file line) pi bi s.pages).length
      rw [modifyChunk_length]
      exact he1
    · show (((modifyChunk (allocChunk c file line) pi bi s.pages).getD e.1
          default).chunks.getD e.2 default).header.allocated = false
      rw [modifyChunk_getD_ne _ _ _ _ _ _ hne]
      exact he3
  · exact (List.nodup_cons.mp hnodup).2

/-- `Allocate` preserves the pool invariant. -/
theorem Allocate_inv (c : Config) (s : PoolState) (file : String) (line : Nat)
    (hc : CfgOK c) (hinv : poolInv c s) : poolInv c (Allocate c s file line).2 := by
  rcases hl : s.freeList with _ | ⟨⟨pi, bi⟩, rest⟩
  · rw [Allocate_of_empty c s file line hc.1 hl]
    rcases hl2 : (CreatePage c s).freeList with _ | ⟨⟨pj, bj⟩, rest2⟩
    · exact absurd hl2 (CreatePage_freeList_ne c s hc.1)
    · exact Allocate_inv_cons c _ file line pj bj rest2 hl2 (CreatePage_inv c s hc hinv)
  · exact Allocate_inv_cons c s file line pi bi rest hl hinv

/-- `Free` preserves the pool invariant. -/
theorem Free_inv (c : Config) (s : PoolState) (pi d : Nat) (file : String)
    (line : Nat) (code : Nat) (s' : PoolState) (logs : List String)
    (hc : CfgOK c) (hinv : poolInv c s)
    (h : Free c s pi d file line = some (code, s', logs)) : poolInv c s' := by
  by_cases hcode : code = 0
  · subst hcode
    obtain ⟨hpi, bi, hbi, rfl, hal, rfl, rfl⟩ :=
      Free_ok_shape c s pi d file line s' logs hc h
    obtain ⟨h1, h2, h3, h4, h5, h6, h7, h8⟩ := hinv
    have hlen : (s.pages.getD pi default).chunks.length = c.blocksPerPage :=
      (h6 _ (by rw [List.getD_eq_getElem _ _ hpi]; exact List.getElem_mem hpi)).1
    have hbl : bi < (s.pages.getD pi default).chunks.length := by omega
    have hcnt := chunksAlloc_modify (freedChunk c s.freeList.head?) pi bi s.pages hpi hbl
    rw [hal] at hcnt
    have hfc : (freedChunk c s.freeList.head?
        ((s.pages.getD pi default).chunks.getD bi default)).header.allocated = false := rfl
    rw [hfc] at hcnt
    simp only [if_true, if_false, Bool.false_eq_true] at hcnt
    have hone := chunksAlloc_pos s.pages pi bi hpi hbl hal
    rw [allocatedCount_eq] at h3
    have hninl : (pi, bi) ∉ s.freeList := by
      intro hmem
      have hx := (h7 _ hmem).2.2
      rw [hx] at hal
      cases hal
    refine ⟨?_, ?_, ?_, ?_, ?_, ?_, ?_, ?_⟩
    · show (freeStats s.stats).pagesInUse =
        (modifyChunk (freedChunk c s.freeList.head?) pi bi s.pages).length
      rw [modifyChunk_length]
      exact h1
    · show s.stats.freeBlocks + 1 = s.freeList.length + 1
      omega
    · show s.stats.blocksInUse - 1 =
        chunksAlloc (modifyChunk (freedChunk c s.freeList.head?) pi bi s.pages)
      omega
    · show s.stats.allocations = s.stats.deallocations + 1 + (s.stats.blocksInUse - 1)
      omega
    · show s.stats.freeBlocks + 1 + (s.stats.blocksInUse - 1) =
        s.stats.pagesInUse * c.blocksPerPage
      omega
    · exact modifyChunk_pageWF c _ pi bi s.pages h6 (fun ch => ⟨rfl, rfl⟩)
    · intro e he
      rcases List.mem_cons.mp he with rfl | hemem
      · refine ⟨?_, hbi, ?_⟩
        · show pi < (modifyChunk (freedChunk c s.freeList.head?) pi bi s.pages).length
          rw [modifyChunk_length]
          exact hpi
        · show (((modifyChunk (freedChunk c s.freeList.head?) pi bi s.pages).getD pi
              default).chunks.getD bi default).header.allocated = false
          rw [modifyChunk_getD_self _ _ _ _ hpi hbl]
          rfl
      · obtain ⟨he1, he2, he3⟩ := h7 e hemem
        have hne : ¬(e.1 = pi ∧ e.2 = bi) := by
          rintro ⟨ha, hb⟩
          have heq : e = (pi, bi) := Prod.ext ha hb
          exact hninl (heq ▸ hemem)
        refine ⟨?_, he2, ?_⟩
        · show e.1 < (modifyChunk (freedChunk c s.freeList.head?) pi bi s.pages).length
          rw [modifyChunk_length]
          exact he1
        · show (((modifyChunk (freedChunk c s.freeList.head?) pi bi s.pages).getD e.1
              default).chunks.getD e.2 default).header.allocated = false
          rw [modifyChunk_getD_ne _ _ _ _ _ _ hne]
          exact he3
    · exact List.nodup_cons.mpr ⟨hninl, h8⟩
  · rw [Free_fail c s pi d file line code s' logs h hcode]
    exact hinv

/-! ### Reachable pool states -/

/-- One pool operation: an `Allocate`, or a `Free` whose execution is
defined (the undefined `Free` executions — address in no page, or the
wrap-around alignment corner — have no successor state). -/
inductive PoolStep (c : Config) : PoolState → PoolState → Prop
  | alloc (s : PoolState) (file : String) (line : Nat) :
      PoolStep c s (Allocate c s file line).2
  | free (s : PoolState) (pi d : Nat) (file : String) (line : Nat)
      (code : Nat) (s' : PoolState) (logs : List String)
      (h : Free c s pi d file line = some (code, s', logs)) :
      PoolStep c s s'

/-- Pool states reachable from a freshly constructed pool. -/
inductive PoolReachable (c : Config) : PoolState → Prop
  | init : PoolReachable c freshPool
  | step (s s' : PoolState) : PoolReachable c s → PoolStep c s s' →
      PoolReachable c s'

theorem poolInv_fresh (c : Config) : poolInv c freshPool := by
  refine ⟨rfl, rfl, rfl, rfl, by simp [freshPool], ?_, ?_, ?_⟩
  · intro pg hpg; simp [freshPool] at hpg
  · intro e he; simp [freshPool] at he
  · simp [freshPool]

theorem poolInv_reachable (c : Config) (s : PoolState) (hc : CfgOK c)
    (h : PoolReachable c s) : poolInv c s := by
  induction h with
  | init => exact poolInv_fresh c
  | step s s' _ hstep ih =>
    cases hstep with
    | alloc file line => exact Allocate_inv c s file line hc ih
    | free pi d file line code s' logs hfree =>
      exact Free_inv c s pi d file line code s' logs hc ih hfree

/-! ### Concrete instances used by witnesses and counterexamples -/

/-- Default-settings pool configuration for a `u64` element type. -/
def cfgU64 : Config := { sizeofT := 8 }

/-- Small two-block configuration for cheap concrete evaluation. -/
def cfgSmall : Config := { sizeofT := 8, blocksPerPage := 2 }

/-- A small pool with one fresh page. -/
def smallPaged : PoolState := CreatePage cfgSmall freshPool

/-- The small pool after one allocation (block 1 of page 0, offset 44). -/
def smallAllocated : PoolState := (Allocate cfgSmall freshPool "alloc.c" 3).2

/-! ### Claim C1 -/

/-- **C1** (amended).  In debug mode, for an address inside some page,
`Free` validates alignment, then double free, then the pad canaries, in
short-circuit order, and returns the matching code: `ALIGN` (0xEE) unless
the address is the start of some block of the page (equivalently, unless
the unsigned 32-bit difference `(d - left_offset) mod interChunkSize` is
zero); otherwise `FREED` (0xBB) if the block's debug header has
`allocated = false`; otherwise `PAD` (0xDD) if any of the `padBytes`
bytes immediately before or after the block differs from 0xDD; otherwise
`0` (OK).  Amendment: the source computes `d - left_offset` in unsigned
32-bit arithmetic, so an offset *below* block 0 whose wrapped difference
is a multiple of `interChunkSize` also passes the alignment check, and
the subsequent header read lies outside the page (undefined behavior,
`none`); such offsets do not return `ALIGN`, contrary to the claim's
integer-arithmetic reading. -/
theorem C1_free_validation (c : Config) (s : PoolState) (pi d : Nat)
    (file : String) (line : Nat) (hc : CfgOK c) :
    (Free c s pi d file line).map (fun r => r.1) = FreeSpec c s pi d := by
  unfold Free FreeSpec
  by_cases h1 : pi < s.pages.length ∧ d < c.pageSize
  · rw [if_pos h1, if_pos h1]
    rcases hfind : (List.range c.blocksPerPage).find?
        (fun bi => d == c.blockOffset bi) with _ | bi
    · have hnone : ∀ bi < c.blocksPerPage, d ≠ c.blockOffset bi := by
        intro bi hbi
        have hx := List.find?_eq_none.mp hfind bi (List.mem_range.mpr hbi)
        simpa using hx
      by_cases h2 : usub32 d c.leftOffset % c.interChunkSize ≠ 0
      · rw [if_pos h2, if_pos (Or.inr h2)]
        rfl
      · rw [if_neg h2]
        push_neg at h2
        by_cases h3 : d < c.leftOffset
        · rw [if_pos h3, if_neg ?side]
          · rfl
          case side =>
            rintro (hx | hx)
            · omega
            · exact hx h2
        · exfalso
          obtain ⟨hk, hdeq⟩ := c.align_decomp hc h1.2 (by omega) h2
          exact hnone _ hk hdeq
    · have hmem := List.mem_of_find?_eq_some hfind
      have hp := List.find?_some hfind
      have hbi : bi < c.blocksPerPage := List.mem_range.mp hmem
      have hdeq : d = c.blockOffset bi := by simpa using hp
      subst hdeq
      obtain ⟨hm, hle, hdiv⟩ := c.align_pass hc bi hbi
      rw [if_neg (by simp [hm]), if_neg (by omega), hdiv]
      simp only []
      by_cases h4 : ((s.pages.getD pi default).chunks.getD bi
          default).header.allocated = false
      · rw [if_pos h4, if_pos h4]
        rfl
      · rw [if_neg h4, if_neg h4, List.any_append]
        by_cases h5 : ((((s.pages.getD pi default).chunks.getD bi
              default).leftPad.any fun b => decide (b ≠ PAD)) ||
            (((s.pages.getD pi default).chunks.getD bi
              default).rightPad.any fun b => decide (b ≠ PAD))) = true
        · rw [if_pos h5, if_pos h5]
          rfl
        · rw [if_neg h5, if_neg h5]
          rfl
  · rw [if_neg h1, if_neg h1]
    rfl

/-- **C1** counterexample.  On the two-block `u64` pool, the in-page
offset 4 is not a block start, and the claim's alignment condition
`(d - left_offset) mod interChunkSize = 0` fails over the integers
(`(4 - 20) mod 24 = 8`), so the claim requires `Free` to return `ALIGN`;
but the source's unsigned 32-bit computation `(2^32 + 4 - 20) % 24 = 0`
passes the alignment check, so `Free` does not return `ALIGN` (it reads a
debug header outside the page: undefined behavior). -/
theorem C1_free_validation_counterexample :
    ((4 : Int) - (cfgSmall.leftOffset : Int)) % (cfgSmall.interChunkSize : Int) ≠ 0 ∧
    usub32 4 cfgSmall.leftOffset % cfgSmall.interChunkSize = 0 ∧
    Free cfgSmall smallPaged 0 4 "cex.c" 7 = none := by
  refine ⟨by decide, by decide, ?_⟩
  decide

/-- Witness for C1: a concrete defined `Free` (double free of the
never-allocated block 1 at offset 44 of the small pool) agrees with the
spec-side validation function. -/
theorem C1_free_validation_witness :
    CfgOK cfgSmall ∧
    (Free cfgSmall smallPaged 0 44 "w.c" 9).map (fun r => r.1) =
      FreeSpec cfgSmall smallPaged 0 44 :=
  ⟨by decide, C1_free_validation cfgSmall smallPaged 0 44 "w.c" 9 (by decide)⟩

/-! ### Claim C2 -/

/-- Allocating from a nonempty free list and then freeing the returned
address succeeds and restores the free list, with the round-trip
statistics update `freeStats ∘ allocStats`. -/
theorem roundtrip_cons (c : Config) (s : PoolState) (f1 f2 : String) (l1 l2 : Nat)
    (pa ba : Nat) (rest : List (Nat × Nat)) (hc : CfgOK c) (hinv : poolInv c s)
    (hl : s.freeList = (pa, ba) :: rest) :
    (Allocate c s f1 l1).1 = (pa, c.blockOffset ba) ∧
    ∃ P2, Free c (Allocate c s f1 l1).2 pa (c.blockOffset ba) f2 l2 =
      some (0, { pages := P2, freeList := s.freeList,
                 stats := freeStats (allocStats s.stats) }, []) := by
  obtain ⟨h1, h2, h3, h4, h5, h6, h7, h8⟩ := hinv
  obtain ⟨hpi0, hbi0, _⟩ := h7 (pa, ba) (by rw [hl]; simp)
  have hpi : pa < s.pages.length := hpi0
  have hbi : ba < c.blocksPerPage := hbi0
  have hmempg : s.pages.getD pa default ∈ s.pages := by
    rw [List.getD_eq_getElem _ _ hpi]; exact List.getElem_mem hpi
  have hlen : (s.pages.getD pa default).chunks.length = c.blocksPerPage :=
    (h6 _ hmempg).1
  have hbl : ba < (s.pages.getD pa default).chunks.length := by omega
  have hmemch : (s.pages.getD pa default).chunks.getD ba default ∈
      (s.pages.getD pa default).chunks := by
    rw [List.getD_eq_getElem _ _ hbl]; exact List.getElem_mem hbl
  obtain ⟨hlp, hrp⟩ := (h6 _ hmempg).2 _ hmemch
  rw [Allocate_cons c s f1 l1 pa ba rest hl]
  refine ⟨rfl, ?_⟩
  have hch : ((modifyChunk (allocChunk c f1 l1) pa ba s.pages).getD pa
      default).chunks.getD ba default =
      allocChunk c f1 l1 ((s.pages.getD pa default).chunks.getD ba default) :=
    modifyChunk_getD_self _ _ _ _ hpi hbl
  have hP : pa < (modifyChunk (allocChunk c f1 l1) pa ba s.pages).length := by
    rw [modifyChunk_length]; exact hpi
  have hA : (((modifyChunk (allocChunk c f1 l1) pa ba s.pages).getD pa
      default).chunks.getD ba default).header.allocated = true := by
    rw [hch]; rfl
  have hL : (((modifyChunk (allocChunk c f1 l1) pa ba s.pages).getD pa
      default).chunks.getD ba default).leftPad = List.replicate c.padBytes PAD := by
    rw [hch]; exact hlp
  have hR : (((modifyChunk (allocChunk c f1 l1) pa ba s.pages).getD pa
      default).chunks.getD ba default).rightPad = List.replicate c.padBytes PAD := by
    rw [hch]; exact hrp
  have hfs := Free_success c
    { pages := modifyChunk (allocChunk c f1 l1) pa ba s.pages
      freeList := rest
      stats := allocStats s.stats } pa ba f2 l2 hc hP hbi hA hL hR
  refine ⟨modifyChunk (freedChunk c rest.head?) pa ba
    (modifyChunk (allocChunk c f1 l1) pa ba s.pages), ?_⟩
  dsimp only
  rw [hfs, hl]

/-- **C2** (amended).  For every pool state satisfying the pool invariant
and every callsite, the round trip `addr = Allocate(...); Free(addr, ...)`
returns status OK (0), restores `blocksInUse` to its prior value, and
bumps `allocations` and `deallocations` by one.  Amendment: `freeBlocks`
is restored to its prior value only when the free list was nonempty; when
it was empty (in particular on a fresh pool) the `Allocate` first creates
a page, and the round trip leaves `freeBlocks` larger by `blocksPerPage`
(1024 on the default `u64` pool, with the returned address at block
`blocksPerPage - 1` of the new page, whose offset is 0 mod 4). -/
theorem C2_round_trip (c : Config) (s : PoolState) (f1 f2 : String)
    (l1 l2 : Nat) (hc : CfgOK c) (hinv : poolInv c s) :
    ∃ pi bi s2,
      (Allocate c s f1 l1).1 = (pi, c.blockOffset bi) ∧
      Free c (Allocate c s f1 l1).2 pi (c.blockOffset bi) f2 l2 =
        some (0, s2, []) ∧
      s2.stats.blocksInUse = s.stats.blocksInUse ∧
      s2.stats.allocations = s.stats.allocations + 1 ∧
      s2.stats.deallocations = s.stats.deallocations + 1 ∧
      s2.stats.freeBlocks = s.stats.freeBlocks +
        (if s.freeList = [] then c.blocksPerPage else 0) ∧
      (s.freeList = [] → (pi, bi) = (s.pages.length, c.blocksPerPage - 1)) := by
  rcases hl : s.freeList with _ | ⟨⟨pa, ba⟩, rest⟩
  · have hre := Allocate_of_empty c s f1 l1 hc.1 hl
    obtain ⟨tl, htl⟩ := CreatePage_freeList_head c s hc.1
    have hinv' := CreatePage_inv c s hc hinv
    obtain ⟨haddr, P2, hfree⟩ := roundtrip_cons c (CreatePage c s) f1 f2 l1 l2
      (s.pages.length) (c.blocksPerPage - 1) tl hc hinv' htl
    refine ⟨s.pages.length, c.blocksPerPage - 1,
      { pages := P2, freeList := (CreatePage c s).freeList,
        stats := freeStats (allocStats (CreatePage c s).stats) }, ?_, ?_, ?_, ?_, ?_, ?_, ?_⟩
    · rw [hre]; exact haddr
    · rw [hre]; exact hfree
    · rfl
    · rfl
    · rfl
    · show s.stats.freeBlocks + c.blocksPerPage - 1 + 1 =
        s.stats.freeBlocks + (if ([] : List (Nat × Nat)) = [] then c.blocksPerPage else 0)
      rw [if_pos rfl]
      have := hc.1
      omega
    · intro _; rfl
  · obtain ⟨haddr, P2, hfree⟩ := roundtrip_cons c s f1 f2 l1 l2 pa ba rest hc hinv hl
    have hfb : s.stats.freeBlocks = rest.length + 1 := by
      rw [hinv.2.1, hl]; simp
    refine ⟨pa, ba,
      { pages := P2, freeList := s.freeList,
        stats := freeStats (allocStats s.stats) }, haddr, hfree, ?_, rfl, rfl, ?_, ?_⟩
    · show s.stats.blocksInUse + 1 - 1 = s.stats.blocksInUse
      omega
    · show s.stats.freeBlocks - 1 + 1 =
        s.stats.freeBlocks + (if ((pa, ba) :: rest : List (Nat × Nat)) = [] then
          c.blocksPerPage else 0)
      rw [if_neg (by simp)]
      omega
    · intro hx
      simp at hx

/-- **C2** counterexample.  On a fresh two-block pool, `freeBlocks` is 0
before the round trip but 2 afterwards, because `Allocate` creates a
page first; `freeBlocks` is not restored to its prior value. -/
theorem C2_round_trip_counterexample :
    freshPool.stats.freeBlocks = 0 ∧
    (Free cfgSmall (Allocate cfgSmall freshPool "a.c" 1).2
        (Allocate cfgSmall freshPool "a.c" 1).1.1
        (Allocate cfgSmall freshPool "a.c" 1).1.2 "b.c" 2).map
      (fun r => r.2.1.stats.freeBlocks) = some 2 ∧ (2 : Nat) ≠ 0 := by
  refine ⟨rfl, ?_, by decide⟩
  decide

/-- Witness for C2: the round trip on a fresh default `u64` pool, with
the returned block offset divisible by 4 and `freeBlocks` ending at
`blocksPerPage = 1024`. -/
theorem C2_round_trip_witness :
    CfgOK cfgU64 ∧ poolInv cfgU64 freshPool ∧
    (∃ pi bi s2,
      (Allocate cfgU64 freshPool "w.c" 1).1 = (pi, cfgU64.blockOffset bi) ∧
      Free cfgU64 (Allocate cfgU64 freshPool "w.c" 1).2 pi
        (cfgU64.blockOffset bi) "w.c" 2 = some (0, s2, []) ∧
      s2.stats.blocksInUse = freshPool.stats.blocksInUse ∧
      s2.stats.allocations = freshPool.stats.allocations + 1 ∧
      s2.stats.deallocations = freshPool.stats.deallocations + 1 ∧
      s2.stats.freeBlocks = freshPool.stats.freeBlocks +
        (if freshPool.freeList = [] then cfgU64.blocksPerPage else 0) ∧
      (freshPool.freeList = [] →
        (pi, bi) = (freshPool.pages.length, cfgU64.blocksPerPage - 1))) ∧
    cfgU64.blockOffset (cfgU64.blocksPerPage - 1) % cfgU64.alignment = 0 ∧
    freshPool.stats.freeBlocks + cfgU64.blocksPerPage = 1024 :=
  ⟨by decide, by decide,
    C2_round_trip cfgU64 freshPool "w.c" "w.c" 1 2 (by decide) (by decide),
    by decide, by decide⟩

/-! ### Claim C3 -/

/-- **C3**.  For every pool state reachable from a fresh debug-mode pool
by any sequence of `Allocate` and (defined) `Free` operations, the
statistics satisfy `freeBlocks + blocksInUse = pagesInUse · blocksPerPage`
and `allocations − deallocations = blocksInUse`. -/
theorem C3_stats_invariants (c : Config) (s : PoolState) (hc : CfgOK c)
    (h : PoolReachable c s) :
    s.stats.freeBlocks + s.stats.blocksInUse =
      s.stats.pagesInUse * c.blocksPerPage ∧
    s.stats.allocations - s.stats.deallocations = s.stats.blocksInUse := by
  obtain ⟨_, _, _, h4, h5, _, _, _⟩ := poolInv_reachable c s hc h
  exact ⟨h5, by omega⟩

/-- Witness for C3: the state reached by one allocation on a small fresh
pool satisfies both statistics equations. -/
theorem C3_stats_invariants_witness :
    smallAllocated.stats.freeBlocks + smallAllocated.stats.blocksInUse =
      smallAllocated.stats.pagesInUse * cfgSmall.blocksPerPage ∧
    smallAllocated.stats.allocations - smallAllocated.stats.deallocations =
      smallAllocated.stats.blocksInUse :=
  C3_stats_invariants cfgSmall smallAllocated (by decide)
    (PoolReachable.step freshPool smallAllocated PoolReachable.init
      (PoolStep.alloc freshPool "alloc.c" 3))

/-! ### Claim C4 -/

/-- **C4**.  In debug mode, whenever `Free` fails validation (returns
`ALIGN`, `FREED` or `PAD`; with exceptions enabled the throw happens at
the same point, before any mutation), the pool state — statistics, free
list, block contents and debug headers — is exactly as before the call;
in particular a second `Free` of the same address after a successful one
returns `FREED` without changing the state (so `blocksInUse` is not
decremented again). -/
theorem C4_failed_free_state_unchanged (c : Config) :
    (∀ s pi d file line code s' logs,
      Free c s pi d file line = some (code, s', logs) → code ≠ 0 → s' = s) ∧
    (∀ s pi d f1 l1 f2 l2 s' logs, CfgOK c →
      Free c s pi d f1 l1 = some (0, s', logs) →
      Free c s' pi d f2 l2 = some (FREED, s', [freedMsg f2 l2])) :=
  ⟨fun s pi d file line code s' logs h hcode =>
      Free_fail c s pi d file line code s' logs h hcode,
    fun s pi d f1 l1 f2 l2 s' logs hc h =>
      Free_double c s pi d f1 f2 l1 l2 s' logs hc h⟩

/-- The small pool state after allocating and then freeing block 1
(used to witness the double-free behavior). -/
def smallFreed : PoolState :=
  ((Free cfgSmall smallAllocated 0 44 "free.c" 4).getD (0, freshPool, [])).2.1

/-- Witness for C4: on the concrete small pool, a misaligned free leaves
the state unchanged, and the second free of an already freed block
returns `FREED` with the state unchanged. -/
theorem C4_failed_free_state_unchanged_witness :
    smallAllocated = smallAllocated ∧
    Free cfgSmall smallFreed 0 44 "y.c" 6 =
      some (FREED, smallFreed, [freedMsg "y.c" 6]) := by
  constructor
  · exact (C4_failed_free_state_unchanged cfgSmall).1 smallAllocated 0 45 "x.c" 5
      ALIGN smallAllocated [alignMsg "x.c" 5] (by decide) (by decide)
  · exact (C4_failed_free_state_unchanged cfgSmall).2 smallAllocated 0 44
      "free.c" 4 "y.c" 6 smallFreed [] (by decide) (by decide)

/-! ### Claim C5 -/

theorem linkBytes_length (t : Option (Nat × Nat)) :
    (linkBytes t).length = ptrSize := by
  cases t <;> simp [linkBytes]

theorem pushLink_take (t : Option (Nat × Nat)) (bb : List MByte) :
    (pushLink t bb).take ptrSize = linkBytes t :=
  List.take_left' (linkBytes_length t)

theorem pushLink_drop (t : Option (Nat × Nat)) (bb : List MByte) :
    (pushLink t bb).drop ptrSize = bb.drop ptrSize :=
  List.drop_left' (linkBytes_length t)

theorem drop_replicate_pad (n m : Nat) (a : MByte) :
    (List.replicate n a).drop m = List.replicate (n - m) a := by
  induction m generalizing n with
  | zero => simp
  | succ k ih =>
    cases n with
    | zero => simp
    | succ n' =>
      rw [List.replicate_succ, List.drop_succ_cons, ih]
      congr 1
      omega

/-- **C5** (amended).  After `CreatePage` on a debug-mode pool, the new
page is appended to the page list with: `leftAlign` bytes equal to
`ALIGN`; `blocksPerPage` chunks in which every header is zeroed, every
pad byte equals `PAD`, every inter-chunk alignment byte equals `ALIGN`,
and the trailing chunk omits the inter-chunk filler; and all blocks are
pushed onto the free list (`freeBlocks` increases by `blocksPerPage`,
`pagesInUse` by 1).  Amendment: not every block byte equals
`UNALLOCATED` — pushing each block onto the free list overwrites its
first pointer-size bytes with the free-list link (block 0 links to the
previous free-list head, block `i+1` to block `i`); only the remaining
`blockSize - ptrSize` bytes hold `UNALLOCATED`. -/
theorem C5_create_page_layout (c : Config) (s : PoolState) :
    (CreatePage c s).pages = s.pages ++ [newPage c s] ∧
    (newPage c s).leftAlignBytes = List.replicate c.leftAlign ALIGN ∧
    (newPage c s).chunks.length = c.blocksPerPage ∧
    (∀ i, i < c.blocksPerPage →
      ((newPage c s).chunks.getD i default).header = {} ∧
      ((newPage c s).chunks.getD i default).leftPad = List.replicate c.padBytes PAD ∧
      ((newPage c s).chunks.getD i default).rightPad = List.replicate c.padBytes PAD ∧
      ((newPage c s).chunks.getD i default).alignBytes =
        (if i = c.blocksPerPage - 1 then [] else List.replicate c.interAlign ALIGN) ∧
      ((newPage c s).chunks.getD i default).blockBytes.take ptrSize =
        linkBytes (if i = 0 then s.freeList.head? else some (s.pages.length, i - 1)) ∧
      ((newPage c s).chunks.getD i default).blockBytes.drop ptrSize =
        List.replicate (c.blockSize - ptrSize) (MByte.val UNALLOCATED)) ∧
    (CreatePage c s).freeList =
      ((List.range c.blocksPerPage).reverse.map fun i => (s.pages.length, i))
        ++ s.freeList ∧
    (CreatePage c s).stats.freeBlocks = s.stats.freeBlocks + c.blocksPerPage ∧
    (CreatePage c s).stats.pagesInUse = s.stats.pagesInUse + 1 := by
  refine ⟨CreatePage_pages c s, rfl, by simpa [newPage] using newChunks_length c s,
    ?_, CreatePage_freeList c s, rfl, rfl⟩
  intro i hi
  have hch : (newPage c s).chunks.getD i default =
      { header := {}
        leftPad := List.replicate c.padBytes PAD
        blockBytes := pushLink
          (if i = 0 then s.freeList.head? else some (s.pages.length, i - 1))
          (List.replicate c.blockSize (MByte.val UNALLOCATED))
        rightPad := List.replicate c.padBytes PAD
        alignBytes := if i = c.blocksPerPage - 1 then []
          else List.replicate c.interAlign ALIGN } := newChunks_getD c s i hi
  rw [hch]
  refine ⟨rfl, rfl, rfl, rfl, pushLink_take _ _, ?_⟩
  rw [pushLink_drop, drop_replicate_pad]

/-- **C5** counterexample.  On a fresh two-block pool, the first byte of
block 0 of the new page is a null free-list link byte (value 0), not
`UNALLOCATED` (0xFF): `Push` threads the free list through the block. -/
theorem C5_create_page_layout_counterexample :
    ((smallPaged.pages.getD 0 default).chunks.getD 0 default).blockBytes.getD 0
      (MByte.val UNALLOCATED) ≠ MByte.val UNALLOCATED := by decide

/-- Witness for C5: the layout facts instantiated at block 1 (the last
block) of a fresh small page. -/
theorem C5_create_page_layout_witness :
    1 < cfgSmall.blocksPerPage ∧
    ((newPage cfgSmall freshPool).chunks.getD 1 default).blockBytes.drop ptrSize =
      List.replicate (cfgSmall.blockSize - ptrSize) (MByte.val UNALLOCATED) :=
  ⟨by decide,
    ((C5_create_page_layout cfgSmall freshPool).2.2.2.1 1 (by decide)).2.2.2.2.2⟩

/-! ### Claim C10 -/

/-- The leak lines the claim predicts: one entry per allocated slot, in
page-walk order (newest page first), nothing for free slots. -/
def leakEntries (c : Config) (s : PoolState) : List String :=
  List.flatten (s.pages.reverse.map fun pg =>
    (pg.chunks.filter fun ch => ch.header.allocated).map fun ch =>
      leakLine c ch.header)

theorem strJoin_cons (a : String) (l : List String) :
    strJoin (a :: l) = a ++ strJoin l := rfl

theorem strJoin_append (l m : List String) :
    strJoin (l ++ m) = strJoin l ++ strJoin m := by
  induction l with
  | nil => rw [List.nil_append]; exact (String.empty_append _).symm
  | cons a l ih =>
    rw [List.cons_append, strJoin_cons, strJoin_cons, ih, String.append_assoc]

theorem strJoin_chunk_filter (c : Config) (l : List Chunk) :
    strJoin (l.map fun ch => if ch.header.allocated then leakLine c ch.header else "") =
      strJoin ((l.filter fun ch => ch.header.allocated).map fun ch =>
        leakLine c ch.header) := by
  induction l with
  | nil => rfl
  | cons a l ih =>
    by_cases h : a.header.allocated
    · rw [List.map_cons, if_pos h, List.filter_cons_of_pos (by simp [h]),
        List.map_cons, strJoin_cons, strJoin_cons, ih]
    · rw [List.map_cons, if_neg h, List.filter_cons_of_neg (by simp [h]),
        strJoin_cons, String.empty_append, ih]

/-- **C10** (amended).  For every pool and every block slot,
`DumpMemoryInUse` writes output only for slots whose debug header has
`allocated = true`, and for each such slot writes exactly one entry of
the exact form `{blockSize}b allocated at line #{line} in file {file}`.
Amendment: the entries are written with **no** trailing newline (the
stream insertion chain ends with the filename), so successive entries
are concatenated directly, contrary to the claim's "ending with the host
newline". -/
theorem C10_dump_memory_in_use (c : Config) (s : PoolState) :
    DumpMemoryInUse c s = strJoin (leakEntries c s) := by
  unfold DumpMemoryInUse leakEntries
  induction s.pages.reverse with
  | nil => rfl
  | cons p ps ih =>
    rw [List.map_cons, List.map_cons, List.flatten_cons, strJoin_cons,
      strJoin_append, ih, strJoin_chunk_filter]

/-- **C10** counterexample.  On the small pool with one allocated block,
the dump output is the bare entry with no newline: it differs from the
claimed newline-terminated form. -/
theorem C10_dump_memory_in_use_counterexample :
    DumpMemoryInUse cfgSmall smallAllocated =
      "8b allocated at line #3 in file alloc.c" ∧
    DumpMemoryInUse cfgSmall smallAllocated ≠
      strJoin ((leakEntries cfgSmall smallAllocated).map fun ln =>
        ln ++ "\n") := by
  constructor
  · decide
  · decide

/-! ## Handle and SmartPointer model (`MemoryHandle.h/.cpp`, `Pointer.h`) -/

/-- The errors raised when `MEMORYMANAGER_ENABLE_EXCEPTIONS` is defined. -/
inductive MMError
  | NegativeRefCount
  | DanglingReference
  | DoubleFree
  | InvalidFree
deriving DecidableEq, Repr

/-- State of one `Handle`: the managed storage address (`none` after the
payload is freed), the signed reference count, and the callsite stored in
the Handle's own debug header (used by the diagnostics). The owning
allocator pointer is kept abstract. -/
structure HandleState where
  memory : Option (Nat × Nat) := none
  refCount : Int := 0
  allocFile : String := ""
  allocLine : Nat := 0
deriving DecidableEq, Repr

/-- `Handle::Handle(allocator, memory)` as invoked by `CreateHandle`:
`refCount` starts at 0; the wrapping SmartPointer performs the first
`AddRef`.  `allocFile`/`allocLine` model the debug header of the
Handle's own pool allocation. -/
def createHandle (m : Option (Nat × Nat)) (file : String) (line : Nat) :
    HandleState :=
  { memory := m, refCount := 0, allocFile := file, allocLine := line }

/-- `Handle::Handle()`: the Null Handle, with empty storage and
`refCount` initialized to 1. -/
def nullHandle : HandleState := { memory := none, refCount := 1 }

/-- `Handle::AddRef()`. -/
def AddRef (h : HandleState) : HandleState :=
  { h with refCount := h.refCount + 1 }

/-- The log line `RemoveRef` writes on a negative reference count
(stream chain, no newline), citing the Handle's own allocation callsite. -/
def negRefMsg (file : String) (line : Nat) (h : HandleState) : String :=
  "[Handle]: Negative RefCount detected from remove at: " ++ file ++ " #" ++
    toString line ++ "Memory allocated at: " ++ h.allocFile ++ " #" ++
    toString h.allocLine

/-- Result of `Handle::RemoveRef`: the raised error (when exceptions are
enabled), the emitted log lines, whether the Handle returned itself to
the Handle pool (`MM_FREE`), and the Handle's fields after the
decrement. -/
structure RemoveRefResult where
  raised : Option MMError
  logs : List String
  freed : Bool
  handle : HandleState
deriving DecidableEq, Repr

/-- `Handle::RemoveRef(filename, line)` (debug build; `exc` selects
`MEMORYMANAGER_ENABLE_EXCEPTIONS`).  Decrements `refCount`; if negative,
logs the diagnostic and (with exceptions) throws `NegativeRefCount`; if
the result is ≤ 0, with exceptions a non-empty `memory` throws the
dangling-reference error (no log line is written for it), and otherwise
the Handle frees itself via `MM_FREE`. -/
def RemoveRef (exc : Bool) (h : HandleState) (file : String) (line : Nat) :
    RemoveRefResult :=
  let rc := h.refCount - 1
  let h' := { h with refCount := rc }
  let logs := if rc < 0 then [negRefMsg file line h] else []
  if exc ∧ rc < 0 then
    { raised := some MMError.NegativeRefCount, logs := logs, freed := false,
      handle := h' }
  else if rc ≤ 0 then
    if exc ∧ h.memory ≠ none then
      { raised := some MMError.DanglingReference, logs := logs, freed := false,
        handle := h' }
    else
      { raised := none, logs := logs, freed := true, handle := h' }
  else
    { raised := none, logs := logs, freed := false, handle := h' }

/-! ### Claim C6 -/

/-- **C6** (amended).  For every Handle and every `RemoveRef` call: if the
decremented `refCount` is negative, a diagnostic including the Handle's
own allocation callsite is emitted and, with exceptions enabled,
`NegativeRefCount` is raised; if the decremented `refCount` is 0 while
storage is non-empty and exceptions are enabled, `DanglingReference` is
raised (no log diagnostic is written for it; without exceptions the
dangling condition is not checked at all); and the Handle is returned to
the Handle pool whenever the decremented `refCount` is ≤ 0 **and no
exception was raised** — in particular always when exceptions are
disabled, but never on the raising paths, contrary to the claim's
"regardless of those diagnostics". -/
theorem C6_remove_ref (exc : Bool) (h : HandleState) (file : String)
    (line : Nat) :
    (RemoveRef exc h file line).handle.refCount = h.refCount - 1 ∧
    (h.refCount - 1 < 0 →
      (RemoveRef exc h file line).logs = [negRefMsg file line h]) ∧
    (¬h.refCount - 1 < 0 → (RemoveRef exc h file line).logs = []) ∧
    (exc = true → h.refCount - 1 < 0 →
      (RemoveRef exc h file line).raised = some MMError.NegativeRefCount ∧
      (RemoveRef exc h file line).freed = false) ∧
    (exc = true → h.refCount - 1 = 0 → h.memory ≠ none →
      (RemoveRef exc h file line).raised = some MMError.DanglingReference ∧
      (RemoveRef exc h file line).freed = false) ∧
    ((RemoveRef exc h file line).freed = true ↔
      (h.refCount - 1 ≤ 0 ∧ (RemoveRef exc h file line).raised = none)) ∧
    (exc = false →
      ((RemoveRef exc h file line).freed = true ↔ h.refCount - 1 ≤ 0)) := by
  by_cases hneg : h.refCount - 1 < 0 <;>
    by_cases hle : h.refCount - 1 ≤ 0 <;>
      by_cases hmem : h.memory = none <;>
        cases exc <;>
          simp [RemoveRef, hneg, hle, hmem] <;>
            omega

/-- Handle used in the C6 counterexample: one live reference, payload
still allocated. -/
def hCexC6 : HandleState :=
  { memory := some (0, 20), refCount := 1, allocFile := "h.c", allocLine := 2 }

/-- Handle used in the C6 witness: one live reference, payload freed. -/
def hWitC6 : HandleState :=
  { memory := none, refCount := 1, allocFile := "h.c", allocLine := 2 }

/-- **C6** counterexample.  With exceptions enabled, `RemoveRef` on a
Handle whose `refCount` drops to 0 while storage is non-empty raises
`DanglingReference` without emitting any log diagnostic and without
returning the Handle to the Handle pool — the claim's "a
DanglingReference diagnostic is emitted" and "regardless of those
diagnostics ... the Handle is returned to the Handle pool" both fail. -/
theorem C6_remove_ref_counterexample :
    (RemoveRef true hCexC6 "f.c" 9).logs = [] ∧
    (RemoveRef true hCexC6 "f.c" 9).freed = false ∧
    (RemoveRef true hCexC6 "f.c" 9).raised = some MMError.DanglingReference := by
  refine ⟨?_, ?_, ?_⟩ <;> rfl

/-- Witness for C6: without exceptions, dropping the last reference of a
storage-empty Handle frees it. -/
theorem C6_remove_ref_witness :
    (RemoveRef false hWitC6 "f.c" 9).handle.refCount = 0 ∧
    (RemoveRef false hWitC6 "f.c" 9).freed = true := by
  have h := C6_remove_ref false hWitC6 "f.c" 9
  exact ⟨h.1, (h.2.2.2.2.2.2 rfl).mpr (by decide)⟩

/-! ### SmartPointer system (claims C7, C8)

A system state tracks the live Handles (indexed slots of the Handle
pool), the Null Handle's reference count, and the live `Pointer` objects.
A pointer target is `none` for the Null Handle or `some i` for handle
slot `i`.  Steps are whole API calls of `Pointer<T>`: `PointerAllocate`,
the constructors, destructor, assignments and `Free`.  The pool status
returned inside `Pointer::Free` affects only diagnostics, never the
reference counting, so it is omitted here (claim C9 composes `Free` with
the pool model explicitly). -/

structure HSys where
  handles : List (Option HandleState) := []
  nullRef : Int := nullHandle.refCount
  nullFreed : Bool := false
  ptrs : List (Option (Option Nat)) := []
deriving DecidableEq, Repr

/-- The initial system: no handles, no pointers, the Null Handle carrying
its initial reference. -/
def initHSys : HSys := {}

/-- Number of live pointers bound to handle slot `i`. -/
def refsTo (sys : HSys) (i : Nat) : Nat :=
  sys.ptrs.countP fun t => t == some (some i)

/-- Number of live pointers bound to the Null Handle. -/
def refsToNull (sys : HSys) : Nat :=
  sys.ptrs.countP fun t => t == some none

/-- `AddRef` on a pointer target. -/
def addRefT (sys : HSys) (t : Option Nat) : HSys :=
  match t with
  | none => { sys with nullRef := sys.nullRef + 1 }
  | some i =>
    match sys.handles.getD i none with
    | none => sys
    | some h => { sys with handles := sys.handles.set i (some (AddRef h)) }

/-- `RemoveRef` on a pointer target (debug build without exceptions):
decrement, and when the count drops to 0 or below return the Handle to
the Handle pool (`MM_FREE`); for the Null Handle record whether that free
was ever triggered. -/
def removeRefT (sys : HSys) (t : Option Nat) (file : String) (line : Nat) : HSys :=
  match t with
  | none =>
    let rc := sys.nullRef - 1
    { sys with nullRef := rc, nullFreed := sys.nullFreed || decide (rc ≤ 0) }
  | some i =>
    match sys.handles.getD i none with
    | none => sys
    | some h =>
      let r := RemoveRef false h file line
      if r.freed then { sys with handles := sys.handles.set i none }
      else { sys with handles := sys.handles.set i (some r.handle) }

/-- Create a new pointer object bound to `t` (constructor: bind then
`AddRef`). -/
def newPtr (sys : HSys) (t : Option Nat) : HSys :=
  let s1 := addRefT sys t
  { s1 with ptrs := s1.ptrs ++ [some t] }

/-- `PointerAllocate`: `CreateHandle` (refCount 0) on a fresh Handle-pool
slot, then wrap it in a new `Pointer` (the first `AddRef`). -/
def pointerAllocate (sys : HSys) (m : Nat × Nat) (file : String) (line : Nat) :
    HSys :=
  let i := sys.handles.length
  let sys1 := { sys with
    handles := sys.handles ++ [some (createHandle (some m) file line)] }
  newPtr sys1 (some i)

/-- `~Pointer()`: `RemoveRef` the bound Handle, then the pointer object
dies. -/
def destroyPtr (sys : HSys) (p : Nat) : HSys :=
  match sys.ptrs.getD p none with
  | none => sys
  | some t =>
    let s1 := removeRefT sys t "" 0
    { s1 with ptrs := s1.ptrs.set p none }

/-- `operator=` between two distinct live pointer objects (the self-check
`this != &rhs` makes self-assignment a no-op): `RemoveRef` the old
Handle, rebind, `AddRef` the new. -/
def assignPtr (sys : HSys) (p q : Nat) : HSys :=
  if p = q then sys
  else
    match sys.ptrs.getD p none, sys.ptrs.getD q none with
    | some tp, some tq =>
      let s1 := removeRefT sys tp "" 0
      addRefT { s1 with ptrs := s1.ptrs.set p (some tq) } tq
    | _, _ => sys

/-- `operator=(nullptr)`: `RemoveRef` the old Handle, rebind to the Null
Handle, `AddRef` it. -/
def assignNullPtr (sys : HSys) (p : Nat) : HSys :=
  match sys.ptrs.getD p none with
  | none => sys
  | some tp =>
    let s1 := removeRefT sys tp "" 0
    addRefT { s1 with ptrs := s1.ptrs.set p (some none) } none

/-- `Pointer::Free(file, line)` (debug, no exceptions): null the Handle's
storage (after the pool `Free`, whose status only affects diagnostics),
`RemoveRef` the Handle, and rebind the pointer to the Null Handle with a
fresh `AddRef`. -/
def pfreePtr (sys : HSys) (p : Nat) (file : String) (line : Nat) : HSys :=
  match sys.ptrs.getD p none with
  | none => sys
  | some none =>
    let s1 := removeRefT sys none file line
    addRefT { s1 with ptrs := s1.ptrs.set p (some none) } none
  | some (some i) =>
    match sys.handles.getD i none with
    | none => sys
    | some h =>
      let sys1 := { sys with
        handles := sys.handles.set i (some { h with memory := none }) }
      let s1 := removeRefT sys1 (some i) file line
      addRefT { s1 with ptrs := s1.ptrs.set p (some none) } none

/-- One SmartPointer API call. -/
inductive HStep : HSys → HSys → Prop
  | palloc (sys : HSys) (m : Nat × Nat) (file : String) (line : Nat) :
      HStep sys (pointerAllocate sys m file line)
  | mknull (sys : HSys) :
      HStep sys (newPtr sys none)
  | mkcopy (sys : HSys) (p : Nat) (t : Option Nat)
      (h : sys.ptrs.getD p none = some t) :
      HStep sys (newPtr sys t)
  | destroy (sys : HSys) (p : Nat) :
      HStep sys (destroyPtr sys p)
  | assign (sys : HSys) (p q : Nat) :
      HStep sys (assignPtr sys p q)
  | assignnull (sys : HSys) (p : Nat) :
      HStep sys (assignNullPtr sys p)
  | pfree (sys : HSys) (p : Nat) (file : String) (line : Nat) :
      HStep sys (pfreePtr sys p file line)

/-- System states built by sequences of SmartPointer calls. -/
inductive HReachable : HSys → Prop
  | init : HReachable initHSys
  | step (sys sys' : HSys) : HReachable sys → HStep sys sys' → HReachable sys'

/-- The reference-counting invariant: the Null Handle was never freed and
holds one reference more than the pointers bound to it (the sentinel
initial reference); every live Handle's `refCount` equals the number of
pointers bound to it and is positive; dead or never-allocated slots have
no pointers bound to them. -/
def HInv (sys : HSys) : Prop :=
  sys.nullFreed = false ∧
  sys.nullRef = refsToNull sys + 1 ∧
  (∀ i h, sys.handles.getD i none = some h →
    h.refCount = (refsTo sys i : Int) ∧ 0 < h.refCount) ∧
  (∀ i, sys.handles.getD i none = none → refsTo sys i = 0)

/-! ### List update helper lemmas for the reference-count proofs -/

theorem getD_set_self (l : List α) (n : Nat) (v d : α) (hn : n < l.length) :
    (l.set n v).getD n d = v := by
  induction l generalizing n with
  | nil => simp at hn
  | cons a as ih =>
    cases n with
    | zero => rfl
    | succ m => simpa [List.set] using ih m (by simpa using hn)

theorem getD_set_ne (l : List α) (n m : Nat) (v d : α) (h : m ≠ n) :
    (l.set n v).getD m d = l.getD m d := by
  induction l generalizing n m with
  | nil => cases n <;> rfl
  | cons a as ih =>
    cases n with
    | zero =>
      cases m with
      | zero => exact absurd rfl h
      | succ k => rfl
    | succ n' =>
      cases m with
      | zero => rfl
      | succ k => simpa [List.set] using ih n' k (by omega)

theorem countP_set (f : α → Bool) (l : List α) (n : Nat) (v d : α)
    (hn : n < l.length) :
    (l.set n v).countP f + (if f (l.getD n d) then 1 else 0) =
      l.countP f + (if f v then 1 else 0) := by
  induction l generalizing n with
  | nil => simp at hn
  | cons a as ih =>
    cases n with
    | zero =>
      simp only [List.set, List.countP_cons, List.getD_cons_zero]
      omega
    | succ m =>
      have := ih m (by simpa using hn)
      simp only [List.set, List.countP_cons, List.getD_cons_succ]
      omega

theorem countP_append_one (f : α → Bool) (l : List α) (v : α) :
    (l ++ [v]).countP f = l.countP f + (if f v then 1 else 0) := by
  rw [List.countP_append]
  simp [List.countP_cons]

theorem countP_pos_of_getD (f : α → Bool) (l : List α) (n : Nat) (d : α)
    (hn : n < l.length) (hf : f (l.getD n d) = true) : 1 ≤ l.countP f := by
  rw [Nat.succ_le, List.countP_pos_iff]
  refine ⟨l.getD n d, ?_, hf⟩
  rw [List.getD_eq_getElem _ _ hn]
  exact List.getElem_mem hn

theorem lt_length_of_getD_ne' (l : List α) (n : Nat) (d : α)
    (h : l.getD n d ≠ d) : n < l.length := by
  by_contra hc
  push_neg at hc
  exact h (List.getD_eq_default _ _ hc)

/-! ### Rewriting the target operations into explicit record updates -/

theorem addRefT_none (sys : HSys) :
    addRefT sys none = { sys with nullRef := sys.nullRef + 1 } := rfl

theorem addRefT_some (sys : HSys) (i : Nat) (h : HandleState)
    (hh : sys.handles.getD i none = some h) :
    addRefT sys (some i) =
      { sys with handles := sys.handles.set i (some (AddRef h)) } := by
  simp only [addRefT]
  rw [hh]

theorem removeRefT_none (sys : HSys) (file : String) (line : Nat) :
    removeRefT sys none file line =
      { sys with nullRef := sys.nullRef - 1
                 nullFreed := sys.nullFreed || decide (sys.nullRef - 1 ≤ 0) } := rfl

theorem removeRefT_some_freed (sys : HSys) (i : Nat) (h : HandleState)
    (file : String) (line : Nat) (hh : sys.handles.getD i none = some h)
    (hrc : h.refCount - 1 ≤ 0) :
    removeRefT sys (some i) file line =
      { sys with handles := sys.handles.set i none } := by
  simp only [removeRefT]
  rw [hh]
  simp [RemoveRef, hrc]

theorem removeRefT_some_live (sys : HSys) (i : Nat) (h : HandleState)
    (file : String) (line : Nat) (hh : sys.handles.getD i none = some h)
    (hrc : ¬h.refCount - 1 ≤ 0) :
    removeRefT sys (some i) file line =
      { sys with handles :=
          sys.handles.set i (some { h with refCount := h.refCount - 1 }) } := by
  simp only [removeRefT]
  rw [hh]
  have hneg : ¬h.refCount - 1 < 0 := by omega
  simp [RemoveRef, hrc, hneg]

theorem countP_append_target (ps : List (Option (Option Nat)))
    (v t : Option (Option Nat)) :
    (ps ++ [v]).countP (fun x => x == t) =
      ps.countP (fun x => x == t) + (if v = t then 1 else 0) := by
  rw [countP_append_one]
  by_cases h : v = t <;> simp [h]

theorem countP_set_target (ps : List (Option (Option Nat))) (p : Nat)
    (hp : p < ps.length) (v t : Option (Option Nat)) :
    (ps.set p v).countP (fun x => x == t) +
      (if ps.getD p none = t then 1 else 0) =
    ps.countP (fun x => x == t) + (if v = t then 1 else 0) := by
  have := countP_set (fun x => x == t) ps p v none hp
  by_cases h1 : ps.getD p none = t <;> by_cases h2 : v = t <;>
    simp [h1, h2] at this ⊢ <;> omega

/-! ### Invariant preservation for the SmartPointer operations -/

theorem newPtr_inv_null (sys : HSys) (hinv : HInv sys) :
    HInv (newPtr sys none) := by
  obtain ⟨h1, h2, h3, h4⟩ := hinv
  have hrn : refsToNull (newPtr sys none) = refsToNull sys + 1 := by
    show (sys.ptrs ++ [some none]).countP _ = _
    rw [countP_append_target]
    simp [refsToNull]
  have hri : ∀ i, refsTo (newPtr sys none) i = refsTo sys i := by
    intro i
    show (sys.ptrs ++ [some none]).countP _ = _
    rw [countP_append_target]
    simp [refsTo]
  refine ⟨h1, ?_, ?_, ?_⟩
  · show sys.nullRef + 1 = _
    rw [hrn]
    omega
  · intro i h hh
    obtain ⟨ha, hb⟩ := h3 i h hh
    exact ⟨by rw [hri i]; exact ha, hb⟩
  · intro i hh
    rw [hri i]
    exact h4 i hh

/-- Weakened invariant: slot `i` may hold a handle whose reference count
equals its (possibly zero) pointer count; every other live handle has a
positive count. -/
def HInvAt (sys : HSys) (i : Nat) : Prop :=
  sys.nullFreed = false ∧
  sys.nullRef = refsToNull sys + 1 ∧
  (∀ j h, sys.handles.getD j none = some h →
    h.refCount = (refsTo sys j : Int) ∧ (j ≠ i → 0 < h.refCount)) ∧
  (∀ j, sys.handles.getD j none = none → refsTo sys j = 0)

theorem hinv_to_at (sys : HSys) (i : Nat) (h : HInv sys) : HInvAt sys i :=
  ⟨h.1, h.2.1,
    fun j h' hh' => ⟨(h.2.2.1 j h' hh').1, fun _ => (h.2.2.1 j h' hh').2⟩,
    h.2.2.2⟩

theorem newPtr_inv_some (sys : HSys) (i : Nat) (h : HandleState)
    (hh : sys.handles.getD i none = some h) (hrc0 : 0 ≤ h.refCount)
    (hw : HInvAt sys i) : HInv (newPtr sys (some i)) := by
  obtain ⟨h1, h2, h3, h4⟩ := hw
  have hlen : i < sys.handles.length :=
    lt_length_of_getD_ne' _ _ _ (by rw [hh]; simp)
  have hsh : (newPtr sys (some i)).handles =
      sys.handles.set i (some (AddRef h)) := by
    unfold newPtr
    rw [addRefT_some sys i h hh]
  have hsp : (newPtr sys (some i)).ptrs = sys.ptrs ++ [some (some i)] := by
    unfold newPtr
    rw [addRefT_some sys i h hh]
  have hsn : (newPtr sys (some i)).nullRef = sys.nullRef := by
    unfold newPtr
    rw [addRefT_some sys i h hh]
  have hsf : (newPtr sys (some i)).nullFreed = sys.nullFreed := by
    unfold newPtr
    rw [addRefT_some sys i h hh]
  have hrnull : refsToNull (newPtr sys (some i)) = refsToNull sys := by
    unfold refsToNull
    rw [hsp, countP_append_target]
    simp
  have hrt : ∀ j, refsTo (newPtr sys (some i)) j =
      refsTo sys j + (if j = i then 1 else 0) := by
    intro j
    unfold refsTo
    rw [hsp, countP_append_target]
    by_cases hij : j = i
    · simp [hij]
    · have hij2 : ¬i = j := fun hx => hij hx.symm
      simp [hij, hij2]
  refine ⟨?_, ?_, ?_, ?_⟩
  · rw [hsf]; exact h1
  · rw [hsn, hrnull]; exact h2
  · intro j h' hh'
    rw [hsh] at hh'
    rw [hrt j]
    by_cases hij : j = i
    · subst hij
      rw [getD_set_self _ _ _ _ hlen] at hh'
      cases hh'
      obtain ⟨ha, _⟩ := h3 j h hh
      rw [if_pos rfl]
      refine ⟨?_, ?_⟩
      · show h.refCount + 1 = _
        rw [ha]
        push_cast
        ring
      · show 0 < h.refCount + 1
        omega
    · rw [getD_set_ne _ _ _ _ _ hij] at hh'
      obtain ⟨ha, hb⟩ := h3 j h' hh'
      rw [if_neg hij]
      exact ⟨by rw [ha]; push_cast; ring, hb hij⟩
  · intro j hh'
    rw [hsh] at hh'
    rw [hrt j]
    by_cases hij : j = i
    · subst hij
      rw [getD_set_self _ _ _ _ hlen] at hh'
      cases hh'
    · rw [getD_set_ne _ _ _ _ _ hij] at hh'
      rw [h4 j hh', if_neg hij]

/-- Copy/move construction from a live pointer preserves the invariant. -/
theorem mkcopy_inv (sys : HSys) (p : Nat) (t : Option Nat)
    (hp : sys.ptrs.getD p none = some t) (hinv : HInv sys) :
    HInv (newPtr sys t) := by
  cases t with
  | none => exact newPtr_inv_null sys hinv
  | some i =>
    have hplen : p < sys.ptrs.length :=
      lt_length_of_getD_ne' _ _ _ (by rw [hp]; simp)
    have hrpos : 1 ≤ refsTo sys i :=
      countP_pos_of_getD _ _ p none hplen (by rw [hp]; simp)
    rcases hgd : sys.handles.getD i none with _ | h
    · rw [hinv.2.2.2 i hgd] at hrpos
      omega
    · have hpos := (hinv.2.2.1 i h hgd).2
      exact newPtr_inv_some sys i h hgd (by omega) (hinv_to_at sys i hinv)

theorem pointerAllocate_inv (sys : HSys) (m : Nat × Nat) (file : String)
    (line : Nat) (hinv : HInv sys) :
    HInv (pointerAllocate sys m file line) := by
  obtain ⟨h1, h2, h3, h4⟩ := hinv
  refine newPtr_inv_some _ sys.handles.length (createHandle (some m) file line)
    ?_ ?_ ⟨h1, h2, ?_, ?_⟩
  · show (sys.handles ++ [some (createHandle (some m) file line)]).getD
      sys.handles.length none = some (createHandle (some m) file line)
    rw [List.getD_append_right _ _ _ _ (le_refl _), Nat.sub_self]
    rfl
  · show (0 : Int) ≤ 0
    exact le_refl 0
  · intro j h' hh'
    have hh2 : (sys.handles ++ [some (createHandle (some m) file line)]).getD
        j none = some h' := hh'
    show h'.refCount = (refsTo sys j : Int) ∧
      (j ≠ sys.handles.length → 0 < h'.refCount)
    by_cases hj : j < sys.handles.length
    · rw [List.getD_append _ _ _ _ hj] at hh2
      obtain ⟨ha, hb⟩ := h3 j h' hh2
      exact ⟨ha, fun _ => hb⟩
    · by_cases hj2 : j = sys.handles.length
      · rw [hj2, List.getD_append_right _ _ _ _ (le_refl _), Nat.sub_self]
          at hh2
        cases hh2
        have hz : refsTo sys j = 0 :=
          h4 j (List.getD_eq_default _ _ (by omega))
        rw [hz]
        exact ⟨rfl, fun hx => absurd hj2 hx⟩
      · rw [List.getD_eq_default _ _ (by simp; omega)] at hh2
        cases hh2
  · intro j hh'
    have hh2 : (sys.handles ++ [some (createHandle (some m) file line)]).getD
        j none = none := hh'
    show refsTo sys j = 0
    by_cases hj : j < sys.handles.length
    · rw [List.getD_append _ _ _ _ hj] at hh2
      exact h4 j hh2
    · by_cases hj2 : j = sys.handles.length
      · rw [hj2, List.getD_append_right _ _ _ _ (le_refl _), Nat.sub_self]
          at hh2
        cases hh2
      · exact h4 j (List.getD_eq_default _ _ (by omega))

/-! ### Rebinding a pointer slot: the common RemoveRef / rebind / AddRef
sequence shared by the assignment operators and `Pointer::Free` -/

theorem countP_two (f : α → Bool) (l : List α) (p q : Nat) (d : α)
    (hpq : p ≠ q) (hp : p < l.length) (hq : q < l.length)
    (hfp : f (l.getD p d) = true) (hfq : f (l.getD q d) = true) :
    2 ≤ l.countP f := by
  induction l generalizing p q with
  | nil => simp at hp
  | cons a as ih =>
    cases p with
    | zero =>
      cases q with
      | zero => exact absurd rfl hpq
      | succ q2 =>
        have hq1 : 1 ≤ as.countP f :=
          countP_pos_of_getD f as q2 d (by simpa using hq) hfq
        have hfa : f a = true := hfp
        rw [List.countP_cons_of_pos f as hfa]
        omega
    | succ p2 =>
      cases q with
      | zero =>
        have hp1 : 1 ≤ as.countP f :=
          countP_pos_of_getD f as p2 d (by simpa using hp) hfp
        have hfa : f a = true := hfq
        rw [List.countP_cons_of_pos f as hfa]
        omega
      | succ q2 =>
        have := ih p2 q2 (by omega) (by simpa using hp) (by simpa using hq)
          hfp hfq
        rw [List.countP_cons]
        omega

/-- A handle slot bound by some live pointer is occupied, and its
reference count matches the pointer count and is positive. -/
theorem live_of_slot (sys : HSys) (q j : Nat)
    (hq : sys.ptrs.getD q none = some (some j)) (hinv : HInv sys) :
    ∃ hj, sys.handles.getD j none = some hj ∧
      hj.refCount = (refsTo sys j : Int) ∧ 0 < hj.refCount := by
  have hqlen : q < sys.ptrs.length :=
    lt_length_of_getD_ne' _ _ _ (by rw [hq]; simp)
  have hrpos : 1 ≤ refsTo sys j :=
    countP_pos_of_getD _ sys.ptrs q none hqlen (by rw [hq]; simp)
  rcases hgd : sys.handles.getD j none with _ | hj
  · exact absurd hrpos (by rw [hinv.2.2.2 j hgd]; omega)
  · exact ⟨hj, rfl, (hinv.2.2.1 j hj hgd).1, (hinv.2.2.1 j hj hgd).2⟩

/-- The rebinding sequence of `operator=` / `operator=(nullptr)` /
`Pointer::Free`: `RemoveRef` the old target `tp` of slot `p`, rebind the
slot to `tq`, `AddRef` the new target. -/
def rebindPtr (sys : HSys) (p : Nat) (tp tq : Option Nat) (file : String)
    (line : Nat) : HSys :=
  let s1 := removeRefT sys tp file line
  addRefT { s1 with ptrs := s1.ptrs.set p (some tq) } tq

theorem rebind_none_none (sys : HSys) (p : Nat) (file : String) (line : Nat) :
    rebindPtr sys p none none file line =
      { sys with
          nullRef := sys.nullRef - 1 + 1
          nullFreed := sys.nullFreed || decide (sys.nullRef - 1 ≤ 0)
          ptrs := sys.ptrs.set p (some none) } := by
  simp only [rebindPtr]
  rw [removeRefT_none, addRefT_none]

theorem rebind_none_some (sys : HSys) (p j : Nat) (hj : HandleState)
    (file : String) (line : Nat)
    (hgd : sys.handles.getD j none = some hj) :
    rebindPtr sys p none (some j) file line =
      { sys with
          handles := sys.handles.set j (some (AddRef hj))
          nullRef := sys.nullRef - 1
          nullFreed := sys.nullFreed || decide (sys.nullRef - 1 ≤ 0)
          ptrs := sys.ptrs.set p (some (some j)) } := by
  simp only [rebindPtr]
  rw [removeRefT_none]
  rw [addRefT_some _ j hj ?_]
  show sys.handles.getD j none = some hj
  exact hgd

theorem rebind_freed_none (sys : HSys) (p i : Nat) (h : HandleState)
    (file : String) (line : Nat)
    (hgd : sys.handles.getD i none = some h) (hrc : h.refCount - 1 ≤ 0) :
    rebindPtr sys p (some i) none file line =
      { sys with
          handles := sys.handles.set i none
          nullRef := sys.nullRef + 1
          ptrs := sys.ptrs.set p (some none) } := by
  simp only [rebindPtr]
  rw [removeRefT_some_freed _ _ _ _ _ hgd hrc, addRefT_none]

theorem rebind_freed_some (sys : HSys) (p i j : Nat) (h hj : HandleState)
    (file : String) (line : Nat)
    (hgdi : sys.handles.getD i none = some h) (hrc : h.refCount - 1 ≤ 0)
    (hji : j ≠ i) (hgdj : sys.handles.getD j none = some hj) :
    rebindPtr sys p (some i) (some j) file line =
      { sys with
          handles := (sys.handles.set i none).set j (some (AddRef hj))
          ptrs := sys.ptrs.set p (some (some j)) } := by
  simp only [rebindPtr]
  rw [removeRefT_some_freed _ _ _ _ _ hgdi hrc]
  rw [addRefT_some _ j hj ?_]
  show (sys.handles.set i none).getD j none = some hj
  rw [getD_set_ne _ _ _ _ _ hji]
  exact hgdj

theorem rebind_live_none (sys : HSys) (p i : Nat) (h : HandleState)
    (file : String) (line : Nat)
    (hgd : sys.handles.getD i none = some h) (hrc : ¬h.refCount - 1 ≤ 0) :
    rebindPtr sys p (some i) none file line =
      { sys with
          handles := sys.handles.set i (some { h with refCount := h.refCount - 1 })
          nullRef := sys.nullRef + 1
          ptrs := sys.ptrs.set p (some none) } := by
  simp only [rebindPtr]
  rw [removeRefT_some_live _ _ _ _ _ hgd hrc, addRefT_none]

theorem rebind_live_self (sys : HSys) (p i : Nat) (h : HandleState)
    (file : String) (line : Nat)
    (hgd : sys.handles.getD i none = some h) (hrc : ¬h.refCount - 1 ≤ 0)
    (hlen : i < sys.handles.length) :
    rebindPtr sys p (some i) (some i) file line =
      { sys with
          handles := (sys.handles.set i (some { h with refCount := h.refCount - 1 })).set i (some (AddRef { h with refCount := h.refCount - 1 }))
          ptrs := sys.ptrs.set p (some (some i)) } := by
  simp only [rebindPtr]
  rw [removeRefT_some_live _ _ _ _ _ hgd hrc]
  rw [addRefT_some _ i { h with refCount := h.refCount - 1 } ?_]
  show (sys.handles.set i (some { h with refCount := h.refCount - 1 })).getD i none = some { h with refCount := h.refCount - 1 }
  rw [getD_set_self _ _ _ _ hlen]

theorem rebind_live_some (sys : HSys) (p i j : Nat) (h hj : HandleState)
    (file : String) (line : Nat)
    (hgdi : sys.handles.getD i none = some h) (hrc : ¬h.refCount - 1 ≤ 0)
    (hji : j ≠ i) (hgdj : sys.handles.getD j none = some hj) :
    rebindPtr sys p (some i) (some j) file line =
      { sys with
          handles := (sys.handles.set i (some { h with refCount := h.refCount - 1 })).set j (some (AddRef hj))
          ptrs := sys.ptrs.set p (some (some j)) } := by
  simp only [rebindPtr]
  rw [removeRefT_some_live _ _ _ _ _ hgdi hrc]
  rw [addRefT_some _ j hj ?_]
  show (sys.handles.set i (some { h with refCount := h.refCount - 1 })).getD j none = some hj
  rw [getD_set_ne _ _ _ _ _ hji]
  exact hgdj

/-- The RemoveRef / rebind / AddRef sequence preserves the
reference-counting invariant, provided slot `p` is a live pointer bound to
`tp` and the new target `tq` is either the Null Handle or the binding of
some other live pointer slot. -/
theorem rebind_inv (sys : HSys) (p : Nat) (tp tq : Option Nat) (file : String)
    (line : Nat) (hp : sys.ptrs.getD p none = some tp)
    (htq : tq = none ∨ ∃ q, q ≠ p ∧ sys.ptrs.getD q none = some tq)
    (hinv : HInv sys) : HInv (rebindPtr sys p tp tq file line) := by
  have h1 := hinv.1
  have h2 := hinv.2.1
  have h3 := hinv.2.2.1
  have h4 := hinv.2.2.2
  have hplen : p < sys.ptrs.length :=
    lt_length_of_getD_ne' _ _ _ (by rw [hp]; simp)
  have hcnt : ∀ (v t : Option (Option Nat)),
      (sys.ptrs.set p v).countP (fun x => x == t) +
          (if (sys.ptrs.getD p none : Option (Option Nat)) = t then 1 else 0) =
        sys.ptrs.countP (fun x => x == t) + (if v = t then 1 else 0) := by
    intro v t
    exact countP_set_target sys.ptrs p hplen v t
  rw [hp] at hcnt
  simp only [refsToNull] at h2
  cases tp with
  | none =>
    have hnn : 1 ≤ sys.ptrs.countP fun t => t == some none :=
      countP_pos_of_getD _ sys.ptrs p none hplen (by rw [hp]; simp)
    cases tq with
    | none =>
      rw [rebind_none_none]
      simp only [HInv, refsToNull, refsTo]
      refine ⟨?_, ?_, ?_, ?_⟩
      · rw [h1]
        simp only [Bool.false_or, decide_eq_false_iff_not]
        omega
      · have hc := hcnt (some none) (some none)
        simp at hc
        omega
      · intro k hk hgdk
        obtain ⟨ha, hb⟩ := h3 k hk hgdk
        simp only [refsTo] at ha
        have hc := hcnt (some none) (some (some k))
        simp at hc
        exact ⟨by omega, hb⟩
      · intro k hgdk
        have hz := h4 k hgdk
        simp only [refsTo] at hz
        have hc := hcnt (some none) (some (some k))
        simp at hc
        omega
    | some j =>
      have hjlive : ∃ hjx, sys.handles.getD j none = some hjx ∧
          hjx.refCount = (refsTo sys j : Int) ∧ 0 < hjx.refCount := by
        rcases htq with hx | ⟨q, hqp, hq⟩
        · simp at hx
        · exact live_of_slot sys q j hq hinv
      obtain ⟨hj, hgdj, hjrc, hjpos⟩ := hjlive
      simp only [refsTo] at hjrc
      have hjlen : j < sys.handles.length :=
        lt_length_of_getD_ne' _ _ _ (by rw [hgdj]; simp)
      rw [rebind_none_some sys p j hj file line hgdj]
      simp only [HInv, refsToNull, refsTo]
      refine ⟨?_, ?_, ?_, ?_⟩
      · rw [h1]
        simp only [Bool.false_or, decide_eq_false_iff_not]
        omega
      · have hc := hcnt (some (some j)) (some none)
        simp at hc
        omega
      · intro k hk hgdk
        by_cases hkj : k = j
        · subst hkj
          rw [getD_set_self _ _ _ _ hjlen] at hgdk
          cases hgdk
          have hA : (AddRef hj).refCount = hj.refCount + 1 := rfl
          have hc := hcnt (some (some k)) (some (some k))
          simp at hc
          constructor
          · rw [hA]
            omega
          · rw [hA]
            omega
        · rw [getD_set_ne _ _ _ _ _ hkj] at hgdk
          obtain ⟨ha, hb⟩ := h3 k hk hgdk
          simp only [refsTo] at ha
          have hjk : ¬j = k := fun hx => hkj hx.symm
          have hc := hcnt (some (some j)) (some (some k))
          simp [hjk] at hc
          exact ⟨by omega, hb⟩
      · intro k hgdk
        by_cases hkj : k = j
        · subst hkj
          rw [getD_set_self _ _ _ _ hjlen] at hgdk
          exact absurd hgdk (by simp)
        · rw [getD_set_ne _ _ _ _ _ hkj] at hgdk
          have hz := h4 k hgdk
          simp only [refsTo] at hz
          have hjk : ¬j = k := fun hx => hkj hx.symm
          have hc := hcnt (some (some j)) (some (some k))
          simp [hjk] at hc
          omega
  | some i =>
    obtain ⟨h, hgdi, hirc, hipos⟩ := live_of_slot sys p i hp hinv
    simp only [refsTo] at hirc
    have hilen : i < sys.handles.length :=
      lt_length_of_getD_ne' _ _ _ (by rw [hgdi]; simp)
    by_cases hfr : h.refCount - 1 ≤ 0
    · cases tq with
      | none =>
        rw [rebind_freed_none sys p i h file line hgdi hfr]
        simp only [HInv, refsToNull, refsTo]
        refine ⟨h1, ?_, ?_, ?_⟩
        · have hc := hcnt (some none) (some none)
          simp at hc
          omega
        · intro k hk hgdk
          by_cases hki : k = i
          · subst hki
            rw [getD_set_self _ _ _ _ hilen] at hgdk
            exact absurd hgdk (by simp)
          · rw [getD_set_ne _ _ _ _ _ hki] at hgdk
            obtain ⟨ha, hb⟩ := h3 k hk hgdk
            simp only [refsTo] at ha
            have hik : ¬i = k := fun hx => hki hx.symm
            have hc := hcnt (some none) (some (some k))
            simp [hik] at hc
            exact ⟨by omega, hb⟩
        · intro k hgdk
          by_cases hki : k = i
          · subst hki
            have hc := hcnt (some none) (some (some k))
            simp at hc
            omega
          · rw [getD_set_ne _ _ _ _ _ hki] at hgdk
            have hz := h4 k hgdk
            simp only [refsTo] at hz
            have hik : ¬i = k := fun hx => hki hx.symm
            have hc := hcnt (some none) (some (some k))
            simp [hik] at hc
            omega
      | some j =>
        rcases htq with hx | ⟨q, hqp, hq⟩
        · simp at hx
        have hji : j ≠ i := by
          intro hx
          subst hx
          have hqlen : q < sys.ptrs.length :=
            lt_length_of_getD_ne' _ _ _ (by rw [hq]; simp)
          have h2r : 2 ≤ sys.ptrs.countP fun x => x == some (some j) :=
            countP_two _ sys.ptrs p q none (fun hx2 => hqp hx2.symm) hplen
              hqlen (by rw [hp]; simp) (by rw [hq]; simp)
          omega
        obtain ⟨hj, hgdj, hjrc, hjpos⟩ := live_of_slot sys q j hq hinv
        simp only [refsTo] at hjrc
        have hjlen : j < sys.handles.length :=
          lt_length_of_getD_ne' _ _ _ (by rw [hgdj]; simp)
        rw [rebind_freed_some sys p i j h hj file line hgdi hfr hji hgdj]
        simp only [HInv, refsToNull, refsTo]
        refine ⟨h1, ?_, ?_, ?_⟩
        · have hc := hcnt (some (some j)) (some none)
          simp at hc
          omega
        · intro k hk hgdk
          by_cases hkj : k = j
          · subst hkj
            rw [getD_set_self _ _ _ _ (by rw [List.length_set]; exact hjlen)]
              at hgdk
            cases hgdk
            have hA : (AddRef hj).refCount = hj.refCount + 1 := rfl
            have hc := hcnt (some (some k)) (some (some k))
            simp [Ne.symm hji] at hc
            constructor
            · rw [hA]
              omega
            · rw [hA]
              omega
          · rw [getD_set_ne _ _ _ _ _ hkj] at hgdk
            by_cases hki : k = i
            · subst hki
              rw [getD_set_self _ _ _ _ hilen] at hgdk
              exact absurd hgdk (by simp)
            · rw [getD_set_ne _ _ _ _ _ hki] at hgdk
              obtain ⟨ha, hb⟩ := h3 k hk hgdk
              simp only [refsTo] at ha
              have hik : ¬i = k := fun hx => hki hx.symm
              have hjk : ¬j = k := fun hx => hkj hx.symm
              have hc := hcnt (some (some j)) (some (some k))
              simp [hik, hjk] at hc
              exact ⟨by omega, hb⟩
        · intro k hgdk
          by_cases hkj : k = j
          · subst hkj
            rw [getD_set_self _ _ _ _ (by rw [List.length_set]; exact hjlen)]
              at hgdk
            exact absurd hgdk (by simp)
          · rw [getD_set_ne _ _ _ _ _ hkj] at hgdk
            by_cases hki : k = i
            · subst hki
              have hjk : ¬j = k := fun hx => hkj hx.symm
              have hc := hcnt (some (some j)) (some (some k))
              simp [hjk] at hc
              omega
            · rw [getD_set_ne _ _ _ _ _ hki] at hgdk
              have hz := h4 k hgdk
              simp only [refsTo] at hz
              have hik : ¬i = k := fun hx => hki hx.symm
              have hjk : ¬j = k := fun hx => hkj hx.symm
              have hc := hcnt (some (some j)) (some (some k))
              simp [hik, hjk] at hc
              omega
    · cases tq with
      | none =>
        rw [rebind_live_none sys p i h file line hgdi hfr]
        simp only [HInv, refsToNull, refsTo]
        refine ⟨h1, ?_, ?_, ?_⟩
        · have hc := hcnt (some none) (some none)
          simp at hc
          omega
        · intro k hk hgdk
          by_cases hki : k = i
          · subst hki
            rw [getD_set_self _ _ _ _ hilen] at hgdk
            cases hgdk
            have hD : ({ h with refCount := h.refCount - 1 } :
                HandleState).refCount = h.refCount - 1 := rfl
            have hc := hcnt (some none) (some (some k))
            simp at hc
            constructor
            · rw [hD]
              omega
            · rw [hD]
              omega
          · rw [getD_set_ne _ _ _ _ _ hki] at hgdk
            obtain ⟨ha, hb⟩ := h3 k hk hgdk
            simp only [refsTo] at ha
            have hik : ¬i = k := fun hx => hki hx.symm
            have hc := hcnt (some none) (some (some k))
            simp [hik] at hc
            exact ⟨by omega, hb⟩
        · intro k hgdk
          by_cases hki : k = i
          · subst hki
            rw [getD_set_self _ _ _ _ hilen] at hgdk
            exact absurd hgdk (by simp)
          · rw [getD_set_ne _ _ _ _ _ hki] at hgdk
            have hz := h4 k hgdk
            simp only [refsTo] at hz
            have hik : ¬i = k := fun hx => hki hx.symm
            have hc := hcnt (some none) (some (some k))
            simp [hik] at hc
            omega
      | some j =>
        rcases htq with hx | ⟨q, hqp, hq⟩
        · simp at hx
        by_cases hji : j = i
        · subst hji
          rw [rebind_live_self sys p j h file line hgdi hfr hilen]
          simp only [HInv, refsToNull, refsTo]
          refine ⟨h1, ?_, ?_, ?_⟩
          · have hc := hcnt (some (some j)) (some none)
            simp at hc
            omega
          · intro k hk hgdk
            by_cases hkj : k = j
            · subst hkj
              rw [getD_set_self _ _ _ _ (by rw [List.length_set]; exact hilen)]
                at hgdk
              cases hgdk
              have hA : (AddRef { h with refCount := h.refCount - 1 }).refCount
                  = h.refCount - 1 + 1 := rfl
              have hc := hcnt (some (some k)) (some (some k))
              simp at hc
              constructor
              · rw [hA]
                omega
              · rw [hA]
                omega
            · rw [getD_set_ne _ _ _ _ _ hkj] at hgdk
              rw [getD_set_ne _ _ _ _ _ hkj] at hgdk
              obtain ⟨ha, hb⟩ := h3 k hk hgdk
              simp only [refsTo] at ha
              have hjk : ¬j = k := fun hx => hkj hx.symm
              have hc := hcnt (some (some j)) (some (some k))
              simp [hjk] at hc
              exact ⟨by omega, hb⟩
          · intro k hgdk
            by_cases hkj : k = j
            · subst hkj
              rw [getD_set_self _ _ _ _ (by rw [List.length_set]; exact hilen)]
                at hgdk
              exact absurd hgdk (by simp)
            · rw [getD_set_ne _ _ _ _ _ hkj] at hgdk
              rw [getD_set_ne _ _ _ _ _ hkj] at hgdk
              have hz := h4 k hgdk
              simp only [refsTo] at hz
              have hjk : ¬j = k := fun hx => hkj hx.symm
              have hc := hcnt (some (some j)) (some (some k))
              simp [hjk] at hc
              omega
        · obtain ⟨hj, hgdj, hjrc, hjpos⟩ := live_of_slot sys q j hq hinv
          simp only [refsTo] at hjrc
          have hjlen : j < sys.handles.length :=
            lt_length_of_getD_ne' _ _ _ (by rw [hgdj]; simp)
          rw [rebind_live_some sys p i j h hj file line hgdi hfr hji hgdj]
          simp only [HInv, refsToNull, refsTo]
          refine ⟨h1, ?_, ?_, ?_⟩
          · have hc := hcnt (some (some j)) (some none)
            simp at hc
            omega
          · intro k hk hgdk
            by_cases hkj : k = j
            · subst hkj
              rw [getD_set_self _ _ _ _ (by rw [List.length_set]; exact hjlen)]
                at hgdk
              cases hgdk
              have hA : (AddRef hj).refCount = hj.refCount + 1 := rfl
              have hc := hcnt (some (some k)) (some (some k))
              simp [Ne.symm hji] at hc
              constructor
              · rw [hA]
                omega
              · rw [hA]
                omega
            · rw [getD_set_ne _ _ _ _ _ hkj] at hgdk
              by_cases hki : k = i
              · subst hki
                rw [getD_set_self _ _ _ _ hilen] at hgdk
                cases hgdk
                have hD : ({ h with refCount := h.refCount - 1 } :
                    HandleState).refCount = h.refCount - 1 := rfl
                have hc := hcnt (some (some j)) (some (some k))
                simp [hji] at hc
                constructor
                · rw [hD]
                  omega
                · rw [hD]
                  omega
              · rw [getD_set_ne _ _ _ _ _ hki] at hgdk
                obtain ⟨ha, hb⟩ := h3 k hk hgdk
                simp only [refsTo] at ha
                have hik : ¬i = k := fun hx => hki hx.symm
                have hjk : ¬j = k := fun hx => hkj hx.symm
                have hc := hcnt (some (some j)) (some (some k))
                simp [hik, hjk] at hc
                exact ⟨by omega, hb⟩
          · intro k hgdk
            by_cases hkj : k = j
            · subst hkj
              rw [getD_set_self _ _ _ _ (by rw [List.length_set]; exact hjlen)]
                at hgdk
              exact absurd hgdk (by simp)
            · rw [getD_set_ne _ _ _ _ _ hkj] at hgdk
              by_cases hki : k = i
              · subst hki
                rw [getD_set_self _ _ _ _ hilen] at hgdk
                exact absurd hgdk (by simp)
              · rw [getD_set_ne _ _ _ _ _ hki] at hgdk
                have hz := h4 k hgdk
                simp only [refsTo] at hz
                have hik : ¬i = k := fun hx => hki hx.symm
                have hjk : ¬j = k := fun hx => hkj hx.symm
                have hc := hcnt (some (some j)) (some (some k))
                simp [hik, hjk] at hc
                omega

/-! ### Destruction and the remaining operations -/

theorem destroy_nop (sys : HSys) (p : Nat)
    (hp : sys.ptrs.getD p none = none) : destroyPtr sys p = sys := by
  simp only [destroyPtr]
  rw [hp]

theorem destroy_null_eq (sys : HSys) (p : Nat)
    (hp : sys.ptrs.getD p none = some none) :
    destroyPtr sys p =
      { sys with
          nullRef := sys.nullRef - 1
          nullFreed := sys.nullFreed || decide (sys.nullRef - 1 ≤ 0)
          ptrs := sys.ptrs.set p none } := by
  simp only [destroyPtr]
  rw [hp]
  rfl

theorem destroy_freed_eq (sys : HSys) (p i : Nat) (h : HandleState)
    (hp : sys.ptrs.getD p none = some (some i))
    (hgd : sys.handles.getD i none = some h) (hrc : h.refCount - 1 ≤ 0) :
    destroyPtr sys p =
      { sys with
          handles := sys.handles.set i none
          ptrs := sys.ptrs.set p none } := by
  simp only [destroyPtr]
  rw [hp]
  show (let s1 := removeRefT sys (some i) "" 0
        { s1 with ptrs := s1.ptrs.set p none }) = _
  rw [removeRefT_some_freed _ _ _ _ _ hgd hrc]

theorem destroy_live_eq (sys : HSys) (p i : Nat) (h : HandleState)
    (hp : sys.ptrs.getD p none = some (some i))
    (hgd : sys.handles.getD i none = some h) (hrc : ¬h.refCount - 1 ≤ 0) :
    destroyPtr sys p =
      { sys with
          handles := sys.handles.set i (some { h with refCount := h.refCount - 1 })
          ptrs := sys.ptrs.set p none } := by
  simp only [destroyPtr]
  rw [hp]
  show (let s1 := removeRefT sys (some i) "" 0
        { s1 with ptrs := s1.ptrs.set p none }) = _
  rw [removeRefT_some_live _ _ _ _ _ hgd hrc]

theorem destroyPtr_inv (sys : HSys) (p : Nat) (hinv : HInv sys) :
    HInv (destroyPtr sys p) := by
  have h1 := hinv.1
  have h2 := hinv.2.1
  have h3 := hinv.2.2.1
  have h4 := hinv.2.2.2
  rcases hp : sys.ptrs.getD p none with _ | t
  · rw [destroy_nop sys p hp]
    exact hinv
  · have hplen : p < sys.ptrs.length :=
      lt_length_of_getD_ne' _ _ _ (by rw [hp]; simp)
    have hcnt : ∀ (t2 : Option (Option Nat)),
        (sys.ptrs.set p none).countP (fun x => x == t2) +
            (if (some t : Option (Option Nat)) = t2 then 1 else 0) =
          sys.ptrs.countP (fun x => x == t2) +
            (if (none : Option (Option Nat)) = t2 then 1 else 0) := by
      intro t2
      have hc := countP_set_target sys.ptrs p hplen none t2
      rw [hp] at hc
      exact hc
    simp only [refsToNull] at h2
    cases t with
    | none =>
      have hnn : 1 ≤ sys.ptrs.countP fun t => t == some none :=
        countP_pos_of_getD _ sys.ptrs p none hplen (by rw [hp]; simp)
      rw [destroy_null_eq sys p hp]
      simp only [HInv, refsToNull, refsTo]
      refine ⟨?_, ?_, ?_, ?_⟩
      · rw [h1]
        simp only [Bool.false_or, decide_eq_false_iff_not]
        omega
      · have hc := hcnt (some none)
        simp at hc
        omega
      · intro k hk hgdk
        obtain ⟨ha, hb⟩ := h3 k hk hgdk
        simp only [refsTo] at ha
        have hc := hcnt (some (some k))
        simp at hc
        exact ⟨by omega, hb⟩
      · intro k hgdk
        have hz := h4 k hgdk
        simp only [refsTo] at hz
        have hc := hcnt (some (some k))
        simp at hc
        omega
    | some i =>
      obtain ⟨h, hgdi, hirc, hipos⟩ := live_of_slot sys p i hp hinv
      simp only [refsTo] at hirc
      have hilen : i < sys.handles.length :=
        lt_length_of_getD_ne' _ _ _ (by rw [hgdi]; simp)
      by_cases hfr : h.refCount - 1 ≤ 0
      · rw [destroy_freed_eq sys p i h hp hgdi hfr]
        simp only [HInv, refsToNull, refsTo]
        refine ⟨h1, ?_, ?_, ?_⟩
        · have hc := hcnt (some none)
          simp at hc
          omega
        · intro k hk hgdk
          by_cases hki : k = i
          · subst hki
            rw [getD_set_self _ _ _ _ hilen] at hgdk
            exact absurd hgdk (by simp)
          · rw [getD_set_ne _ _ _ _ _ hki] at hgdk
            obtain ⟨ha, hb⟩ := h3 k hk hgdk
            simp only [refsTo] at ha
            have hik : ¬i = k := fun hx => hki hx.symm
            have hc := hcnt (some (some k))
            simp [hik] at hc
            exact ⟨by omega, hb⟩
        · intro k hgdk
          by_cases hki : k = i
          · subst hki
            have hc := hcnt (some (some k))
            simp at hc
            omega
          · rw [getD_set_ne _ _ _ _ _ hki] at hgdk
            have hz := h4 k hgdk
            simp only [refsTo] at hz
            have hik : ¬i = k := fun hx => hki hx.symm
            have hc := hcnt (some (some k))
            simp [hik] at hc
            omega
      · rw [destroy_live_eq sys p i h hp hgdi hfr]
        simp only [HInv, refsToNull, refsTo]
        refine ⟨h1, ?_, ?_, ?_⟩
        · have hc := hcnt (some none)
          simp at hc
          omega
        · intro k hk hgdk
          by_cases hki : k = i
          · subst hki
            rw [getD_set_self _ _ _ _ hilen] at hgdk
            cases hgdk
            have hD : ({ h with refCount := h.refCount - 1 } :
                HandleState).refCount = h.refCount - 1 := rfl
            have hc := hcnt (some (some k))
            simp at hc
            constructor
            · rw [hD]
              omega
            · rw [hD]
              omega
          · rw [getD_set_ne _ _ _ _ _ hki] at hgdk
            obtain ⟨ha, hb⟩ := h3 k hk hgdk
            simp only [refsTo] at ha
            have hik : ¬i = k := fun hx => hki hx.symm
            have hc := hcnt (some (some k))
            simp [hik] at hc
            exact ⟨by omega, hb⟩
        · intro k hgdk
          by_cases hki : k = i
          · subst hki
            rw [getD_set_self _ _ _ _ hilen] at hgdk
            exact absurd hgdk (by simp)
          · rw [getD_set_ne _ _ _ _ _ hki] at hgdk
            have hz := h4 k hgdk
            simp only [refsTo] at hz
            have hik : ¬i = k := fun hx => hki hx.symm
            have hc := hcnt (some (some k))
            simp [hik] at hc
            omega

theorem assignPtr_inv (sys : HSys) (p q : Nat) (hinv : HInv sys) :
    HInv (assignPtr sys p q) := by
  by_cases hpq : p = q
  · have he : assignPtr sys p q = sys := by
      simp only [assignPtr]
      rw [if_pos hpq]
    rw [he]
    exact hinv
  · rcases hp : sys.ptrs.getD p none with _ | tp
    · have he : assignPtr sys p q = sys := by
        simp only [assignPtr]
        rw [if_neg hpq, hp]
      rw [he]
      exact hinv
    · rcases hq : sys.ptrs.getD q none with _ | tq
      · have he : assignPtr sys p q = sys := by
          simp only [assignPtr]
          rw [if_neg hpq, hp, hq]
        rw [he]
        exact hinv
      · have he : assignPtr sys p q = rebindPtr sys p tp tq "" 0 := by
          simp only [assignPtr]
          rw [if_neg hpq, hp, hq]
          rfl
        rw [he]
        exact rebind_inv sys p tp tq "" 0 hp
          (Or.inr ⟨q, fun hx => hpq hx.symm, hq⟩) hinv

theorem assignNullPtr_inv (sys : HSys) (p : Nat) (hinv : HInv sys) :
    HInv (assignNullPtr sys p) := by
  rcases hp : sys.ptrs.getD p none with _ | tp
  · have he : assignNullPtr sys p = sys := by
      simp only [assignNullPtr]
      rw [hp]
    rw [he]
    exact hinv
  · have he : assignNullPtr sys p = rebindPtr sys p tp none "" 0 := by
      simp only [assignNullPtr]
      rw [hp]
      rfl
    rw [he]
    exact rebind_inv sys p tp none "" 0 hp (Or.inl rfl) hinv

/-- The state after `Handle::Free` nulls a live Handle's storage. -/
def memNulled (sys : HSys) (i : Nat) (h : HandleState) : HSys :=
  { sys with handles := sys.handles.set i (some { h with memory := none }) }

theorem memNull_inv (sys : HSys) (i : Nat) (h : HandleState)
    (hgd : sys.handles.getD i none = some h) (hinv : HInv sys) :
    HInv (memNulled sys i h) := by
  have h1 := hinv.1
  have h2 := hinv.2.1
  have h3 := hinv.2.2.1
  have h4 := hinv.2.2.2
  have hilen : i < sys.handles.length :=
    lt_length_of_getD_ne' _ _ _ (by rw [hgd]; simp)
  simp only [HInv, memNulled, refsToNull, refsTo]
  refine ⟨h1, ?_, ?_, ?_⟩
  · simp only [refsToNull] at h2
    exact h2
  · intro k hk hgdk
    by_cases hki : k = i
    · subst hki
      rw [getD_set_self _ _ _ _ hilen] at hgdk
      cases hgdk
      have hD : ({ h with memory := none } : HandleState).refCount =
          h.refCount := rfl
      obtain ⟨ha, hb⟩ := h3 k h hgd
      simp only [refsTo] at ha
      rw [hD]
      exact ⟨ha, hb⟩
    · rw [getD_set_ne _ _ _ _ _ hki] at hgdk
      obtain ⟨ha, hb⟩ := h3 k hk hgdk
      simp only [refsTo] at ha
      exact ⟨ha, hb⟩
  · intro k hgdk
    by_cases hki : k = i
    · subst hki
      rw [getD_set_self _ _ _ _ hilen] at hgdk
      exact absurd hgdk (by simp)
    · rw [getD_set_ne _ _ _ _ _ hki] at hgdk
      have hz := h4 k hgdk
      simp only [refsTo] at hz
      exact hz

theorem pfreePtr_inv (sys : HSys) (p : Nat) (file : String) (line : Nat)
    (hinv : HInv sys) : HInv (pfreePtr sys p file line) := by
  rcases hp : sys.ptrs.getD p none with _ | t
  · have he : pfreePtr sys p file line = sys := by
      simp only [pfreePtr]
      rw [hp]
    rw [he]
    exact hinv
  · cases t with
    | none =>
      have he : pfreePtr sys p file line = rebindPtr sys p none none file line := by
        simp only [pfreePtr]
        rw [hp]
        rfl
      rw [he]
      exact rebind_inv sys p none none file line hp (Or.inl rfl) hinv
    | some i =>
      rcases hgd : sys.handles.getD i none with _ | h
      · have he : pfreePtr sys p file line = sys := by
          simp only [pfreePtr, hp, hgd]
        rw [he]
        exact hinv
      · have he : pfreePtr sys p file line =
            rebindPtr (memNulled sys i h) p (some i) none file line := by
          simp only [pfreePtr, hp, hgd]
          rfl
        rw [he]
        have hp2 : (memNulled sys i h).ptrs.getD p none = some (some i) := hp
        exact rebind_inv (memNulled sys i h) p (some i) none file line hp2
          (Or.inl rfl) (memNull_inv sys i h hgd hinv)

theorem hInv_init : HInv initHSys := by
  refine ⟨rfl, by decide, ?_, ?_⟩
  · intro i h hgd
    have hn : initHSys.handles.getD i none = none := by
      cases i <;> rfl
    rw [hn] at hgd
    exact absurd hgd (by simp)
  · intro i hgd
    rfl

/-- Each SmartPointer API call preserves the reference-counting
invariant. -/
theorem hInv_step (sys sys2 : HSys) (hs : HStep sys sys2) (hinv : HInv sys) :
    HInv sys2 := by
  cases hs with
  | palloc m file line => exact pointerAllocate_inv sys m file line hinv
  | mknull => exact newPtr_inv_null sys hinv
  | mkcopy p t h => exact mkcopy_inv sys p t h hinv
  | destroy p => exact destroyPtr_inv sys p hinv
  | assign p q => exact assignPtr_inv sys p q hinv
  | assignnull p => exact assignNullPtr_inv sys p hinv
  | pfree p file line => exact pfreePtr_inv sys p file line hinv

/-- The reference-counting invariant holds in every reachable state. -/
theorem hInv_reachable (sys : HSys) (h : HReachable sys) : HInv sys := by
  induction h with
  | init => exact hInv_init
  | step s s2 hr hs ih => exact hInv_step s s2 hs ih

/-! ### Claim C7 -/

/-- **C7**.  In every state built by SmartPointer API calls
(`PointerAllocate`, construction, copy, move, assignment, destruction,
`Free`), every Handle reachable from a live SmartPointer exists in the
Handle pool and has `refCount > 0`; `CreateHandle` constructs the Handle
with `refCount = 0`, and the wrapping SmartPointer's first `AddRef` makes
the Handle produced by `PointerAllocate` carry `refCount = 1`. -/
theorem C7_refcount_positive :
    (∀ sys, HReachable sys → ∀ p i, sys.ptrs.getD p none = some (some i) →
      ∃ h, sys.handles.getD i none = some h ∧ 0 < h.refCount) ∧
    (∀ m file line, (createHandle m file line).refCount = 0) ∧
    (∀ sys m file line, ∃ h,
      (pointerAllocate sys m file line).handles.getD sys.handles.length none =
        some h ∧ h.refCount = 1) := by
  refine ⟨?_, ?_, ?_⟩
  · intro sys hr p i hp
    obtain ⟨h, hgd, _, hpos⟩ := live_of_slot sys p i hp (hInv_reachable sys hr)
    exact ⟨h, hgd, hpos⟩
  · intro m file line
    rfl
  · intro sys m file line
    refine ⟨AddRef (createHandle (some m) file line), ?_, rfl⟩
    have hgd1 : (sys.handles ++ [some (createHandle (some m) file line)]).getD
        sys.handles.length none = some (createHandle (some m) file line) := by
      rw [List.getD_append_right _ _ _ _ (le_refl _), Nat.sub_self]
      rfl
    have hsh : (pointerAllocate sys m file line).handles =
        (sys.handles ++ [some (createHandle (some m) file line)]).set
          sys.handles.length
          (some (AddRef (createHandle (some m) file line))) := by
      simp only [pointerAllocate, newPtr]
      rw [addRefT_some _ sys.handles.length (createHandle (some m) file line)
        ?_]
      exact hgd1
    rw [hsh]
    rw [getD_set_self _ _ _ _ (by rw [List.length_append]; simp)]

/-- Witness for C7: the invariant instantiated at the state reached by one
`PointerAllocate` from the initial state, at pointer slot 0 and handle
slot 0. -/
theorem C7_refcount_positive_witness :
    ∃ h, (pointerAllocate initHSys (0, 0) "w.c" 1).handles.getD 0 none =
        some h ∧ 0 < h.refCount :=
  C7_refcount_positive.1 (pointerAllocate initHSys (0, 0) "w.c" 1)
    (HReachable.step initHSys (pointerAllocate initHSys (0, 0) "w.c" 1)
      HReachable.init (HStep.palloc initHSys (0, 0) "w.c" 1)) 0 0 rfl

/-! ### Claim C8 -/

/-- **C8**.  The Null Handle starts with empty storage and `refCount = 1`,
and in every state built by SmartPointer API calls it has never been
returned to the Handle pool: its count stays exactly one above the number
of pointers bound to it (the sentinel initial reference), hence ≥ 1, so
`RemoveRef` never frees it. -/
theorem C8_null_never_freed :
    nullHandle.memory = none ∧ nullHandle.refCount = 1 ∧
    ∀ sys, HReachable sys →
      sys.nullFreed = false ∧ sys.nullRef = (refsToNull sys : Int) + 1 ∧
        1 ≤ sys.nullRef := by
  refine ⟨rfl, rfl, ?_⟩
  intro sys hr
  have hinv := hInv_reachable sys hr
  refine ⟨hinv.1, hinv.2.1, ?_⟩
  have h2 := hinv.2.1
  omega

/-- Witness for C8: the Null Handle facts at the initial state. -/
theorem C8_null_never_freed_witness :
    initHSys.nullFreed = false ∧
      initHSys.nullRef = (refsToNull initHSys : Int) + 1 ∧
      1 ≤ initHSys.nullRef :=
  C8_null_never_freed.2.2 initHSys HReachable.init

/-! ### Claim C9: `Pointer<T>::Free` -/

/-- The log line `Handle::Free` writes when its storage is already null
(stream chain, no newline), citing the Handle's own allocation callsite. -/
def danglingFreeMsg (file : String) (line : Nat) (h : HandleState) : String :=
  "[Handle]: Attempt to free freed memory. Free attempt at: " ++ file ++
    " #" ++ toString line ++ "Memory allocated at: " ++ h.allocFile ++ " #" ++
    toString h.allocLine

/-- The log line `Handle::Free` writes when the pool's `Free` returns a
non-OK status. -/
def invalidFreeMsg (file : String) (line : Nat) (h : HandleState) : String :=
  "[Handle]: Invalid free attempt failed at: " ++ file ++ " #" ++
    toString line ++ "Memory allocated at: " ++ h.allocFile ++ " #" ++
    toString h.allocLine

/-- Result of `Handle::Free<T>` (debug build): raised error, log lines,
pool state and Handle fields afterwards. -/
structure HandleFreeResult where
  raised : Option MMError
  logs : List String
  pool : PoolState
  handle : HandleState
deriving DecidableEq, Repr

/-- `Handle::Free<T>(file, line)` (debug build; `exc` selects
`MEMORYMANAGER_ENABLE_EXCEPTIONS`).  Null storage: log the dangling-free
diagnostic and (with exceptions) throw.  Otherwise call the pool's `Free`
on the storage; on a non-OK status log the invalid-free diagnostic and
(with exceptions) throw — the throw happens before `memory = nullptr`, so
the storage is not nulled on that path.  `none` propagates the pool
`Free` executions whose behavior is undefined. -/
def HandleFree (exc : Bool) (c : Config) (pool : PoolState) (h : HandleState)
    (file : String) (line : Nat) : Option HandleFreeResult :=
  match h.memory with
  | none =>
    some { raised := if exc then some MMError.DoubleFree else none
           logs := [danglingFreeMsg file line h]
           pool := pool
           handle := h }
  | some addr =>
    match Free c pool addr.1 addr.2 file line with
    | none => none
    | some (code, pool2, flogs) =>
      if code ≠ 0 then
        some { raised := if exc then some MMError.InvalidFree else none
               logs := flogs ++ [invalidFreeMsg file line h]
               pool := pool2
               handle := if exc then h else { h with memory := none } }
      else
        some { raised := none
               logs := flogs
               pool := pool2
               handle := { h with memory := none } }

/-- Result of `Pointer<T>::Free`: raised error, logs, pool, the Handle's
fields, whether the Handle freed itself (`MM_FREE` in `RemoveRef`),
whether the pointer was rebound to the Null Handle, and the Null Handle's
reference count. -/
structure PFreeResult where
  raised : Option MMError
  logs : List String
  pool : PoolState
  handle : HandleState
  handleFreed : Bool
  boundToNull : Bool
  nullRef : Int
deriving DecidableEq, Repr

/-- `Pointer<T>::Free(file, line)`: `handle->Free<T>`, then
`handle->RemoveRef`, then rebind to `Handle::Null` and `AddRef` it.  A
throw inside `Free` or `RemoveRef` propagates out and skips the remaining
statements. -/
def PointerFree (exc : Bool) (c : Config) (pool : PoolState)
    (h : HandleState) (nr : Int) (file : String) (line : Nat) :
    Option PFreeResult :=
  match HandleFree exc c pool h file line with
  | none => none
  | some r =>
    if r.raised ≠ none then
      some { raised := r.raised
             logs := r.logs
             pool := r.pool
             handle := r.handle
             handleFreed := false
             boundToNull := false
             nullRef := nr }
    else
      let rr := RemoveRef exc r.handle file line
      if rr.raised ≠ none then
        some { raised := rr.raised
               logs := r.logs ++ rr.logs
               pool := r.pool
               handle := rr.handle
               handleFreed := false
               boundToNull := false
               nullRef := nr }
      else
        some { raised := none
               logs := r.logs ++ rr.logs
               pool := r.pool
               handle := rr.handle
               handleFreed := rr.freed
               boundToNull := true
               nullRef := nr + 1 }

/-- `RemoveRef` on a handle whose decremented count is not negative and
whose storage is empty raises nothing, logs nothing, and decrements. -/
theorem RemoveRef_clean (exc : Bool) (h : HandleState) (file : String)
    (line : Nat) (hneg : ¬h.refCount - 1 < 0) (hmem : h.memory = none) :
    (RemoveRef exc h file line).raised = none ∧
    (RemoveRef exc h file line).logs = [] ∧
    (RemoveRef exc h file line).handle =
      { h with refCount := h.refCount - 1 } := by
  by_cases hle : h.refCount - 1 ≤ 0 <;> cases exc <;>
    simp [RemoveRef, hneg, hle, hmem]

/-- `Pointer::Free` on a null-storage Handle: diagnostic, no pool call;
with exceptions the raise skips `RemoveRef` and the rebinding. -/
theorem PointerFree_dangling (exc : Bool) (c : Config) (pool : PoolState)
    (h : HandleState) (nr : Int) (file : String) (line : Nat)
    (hm : h.memory = none) (hneg : ¬h.refCount - 1 < 0) :
    PointerFree exc c pool h nr file line =
      (if exc then
        some { raised := some MMError.DoubleFree
               logs := [danglingFreeMsg file line h]
               pool := pool
               handle := h
               handleFreed := false
               boundToNull := false
               nullRef := nr }
      else
        some { raised := none
               logs := [danglingFreeMsg file line h]
               pool := pool
               handle := { h with refCount := h.refCount - 1 }
               handleFreed := (RemoveRef false h file line).freed
               boundToNull := true
               nullRef := nr + 1 }) := by
  cases exc
  · have hr := RemoveRef_clean false h file line hneg hm
    simp [PointerFree, HandleFree, hm, hr.1, hr.2.1, hr.2.2]
  · simp [PointerFree, HandleFree, hm]

/-- `Pointer::Free` on a Handle with live storage, assuming the pool
`Free` is defined: the pool is updated; a non-OK status diagnoses and,
with exceptions, raises before the storage is nulled; otherwise the
storage is nulled, the Handle is `RemoveRef`ed and the pointer rebound. -/
theorem PointerFree_pool (exc : Bool) (c : Config) (pool : PoolState)
    (h : HandleState) (nr : Int) (file : String) (line : Nat)
    (pi d code : Nat) (pool2 : PoolState) (flogs : List String)
    (hm : h.memory = some (pi, d))
    (hfree : Free c pool pi d file line = some (code, pool2, flogs))
    (hneg : ¬h.refCount - 1 < 0) :
    PointerFree exc c pool h nr file line =
      (if code = 0 then
        some { raised := none
               logs := flogs
               pool := pool2
               handle := { h with memory := none, refCount := h.refCount - 1 }
               handleFreed :=
                 (RemoveRef exc { h with memory := none } file line).freed
               boundToNull := true
               nullRef := nr + 1 }
      else if exc then
        some { raised := some MMError.InvalidFree
               logs := flogs ++ [invalidFreeMsg file line h]
               pool := pool2
               handle := h
               handleFreed := false
               boundToNull := false
               nullRef := nr }
      else
        some { raised := none
               logs := flogs ++ [invalidFreeMsg file line h]
               pool := pool2
               handle := { h with memory := none, refCount := h.refCount - 1 }
               handleFreed :=
                 (RemoveRef false { h with memory := none } file line).freed
               boundToNull := true
               nullRef := nr + 1 }) := by
  have hr := RemoveRef_clean exc { h with memory := none } file line hneg rfl
  by_cases hcode : code = 0 <;> cases exc <;>
    simp [PointerFree, HandleFree, hm, hfree, hcode, hr.1, hr.2.1, hr.2.2]

/-- **C9**.  `Pointer<T>::Free(file, line)` in debug mode: on empty
storage it emits the freed-memory diagnostic (raising `DoubleFree` with
exceptions enabled, which skips the rest); otherwise it calls the owning
pool's `Free` on the storage, and on any non-OK status emits the
invalid-free diagnostic (raising `InvalidFree` with exceptions enabled,
before the storage is nulled); on every non-raising path it then nulls
the Handle's storage, `RemoveRef`s the Handle, and rebinds the pointer to
the Null Handle with a fresh `AddRef`. -/
theorem C9_pointer_free (exc : Bool) (c : Config) (pool : PoolState)
    (h : HandleState) (nr : Int) (file : String) (line : Nat)
    (hrc : 0 < h.refCount) :
    (h.memory = none →
      ∃ r, PointerFree exc c pool h nr file line = some r ∧
        danglingFreeMsg file line h ∈ r.logs ∧ r.pool = pool ∧
        (exc = true → r.raised = some MMError.DoubleFree ∧
          r.boundToNull = false ∧ r.nullRef = nr) ∧
        (exc = false → r.raised = none ∧ r.handle.memory = none ∧
          r.handle.refCount = h.refCount - 1 ∧ r.boundToNull = true ∧
          r.nullRef = nr + 1)) ∧
    (∀ pi d code pool2 flogs, h.memory = some (pi, d) →
      Free c pool pi d file line = some (code, pool2, flogs) →
      ∃ r, PointerFree exc c pool h nr file line = some r ∧ r.pool = pool2 ∧
        (code ≠ 0 → invalidFreeMsg file line h ∈ r.logs ∧
          (exc = true → r.raised = some MMError.InvalidFree ∧
            r.handle.memory = some (pi, d) ∧ r.boundToNull = false ∧
            r.nullRef = nr)) ∧
        (code = 0 → r.raised = none ∧ r.logs = flogs ∧
          r.handle.memory = none ∧ r.handle.refCount = h.refCount - 1 ∧
          r.boundToNull = true ∧ r.nullRef = nr + 1) ∧
        (code ≠ 0 → exc = false → r.raised = none ∧
          r.handle.memory = none ∧ r.handle.refCount = h.refCount - 1 ∧
          r.boundToNull = true ∧ r.nullRef = nr + 1)) := by
  have hneg : ¬h.refCount - 1 < 0 := by omega
  constructor
  · intro hm
    rw [PointerFree_dangling exc c pool h nr file line hm hneg]
    cases exc
    · refine ⟨_, rfl, ?_, rfl, ?_, ?_⟩
      · simp
      · intro hx
        exact absurd hx (by decide)
      · intro hx
        exact ⟨rfl, hm, rfl, rfl, rfl⟩
    · refine ⟨_, rfl, ?_, rfl, ?_, ?_⟩
      · simp
      · intro hx
        exact ⟨rfl, rfl, rfl⟩
      · intro hx
        exact absurd hx (by decide)
  · intro pi d code pool2 flogs hm hfree
    rw [PointerFree_pool exc c pool h nr file line pi d code pool2 flogs hm
      hfree hneg]
    by_cases hcode : code = 0
    · rw [if_pos hcode]
      refine ⟨_, rfl, rfl, ?_, ?_, ?_⟩
      · intro hx
        exact absurd hcode hx
      · intro hx
        exact ⟨rfl, rfl, rfl, rfl, rfl, rfl⟩
      · intro hx
        exact absurd hcode hx
    · rw [if_neg hcode]
      cases exc
      · refine ⟨_, rfl, rfl, ?_, ?_, ?_⟩
        · intro hx
          refine ⟨by simp, ?_⟩
          intro hb
          exact absurd hb (by decide)
        · intro hx
          exact absurd hx hcode
        · intro hx hb
          exact ⟨rfl, rfl, rfl, rfl, rfl⟩
      · refine ⟨_, rfl, rfl, ?_, ?_, ?_⟩
        · intro hx
          refine ⟨by simp, ?_⟩
          intro hb
          exact ⟨rfl, hm, rfl, rfl⟩
        · intro hx
          exact absurd hx hcode
        · intro hx hb
          exact absurd hb (by decide)

/-- Handle used in the C9 witness: storage bound to the block allocated
in `smallAllocated`, one live reference. -/
def hWitC9 : HandleState :=
  { memory := some (0, 44), refCount := 1, allocFile := "alloc.c",
    allocLine := 3 }

/-- Witness for C9: freeing a live pointer on the small two-block pool
succeeds with status OK, updates the pool, nulls the storage, and rebinds
the pointer to the Null Handle with a fresh reference. -/
theorem C9_pointer_free_witness :
    ∃ r, PointerFree false cfgSmall smallAllocated hWitC9 5 "w.c" 7 =
        some r ∧ r.pool = smallFreed ∧ r.raised = none ∧
      r.handle.memory = none ∧ r.boundToNull = true ∧ r.nullRef = 6 := by
  obtain ⟨r, he, hpool, _, hok, _⟩ :=
    (C9_pointer_free false cfgSmall smallAllocated hWitC9 5 "w.c" 7
      (by decide)).2 0 44 0 smallFreed [] rfl (by decide)
  obtain ⟨hraised, _, hmem, _, hbound, hnull⟩ := hok rfl
  exact ⟨r, he, hpool, hraised, hmem, hbound, hnull⟩

end MemoryManager
